import Mathlib

/-!
Verification development for the unified2 reading core (idstools/unified2.py).

The Python module is shallowly embedded: files are byte lists with an explicit
position, `struct.unpack` becomes a little big-endian parser over byte lists,
the dict-based record classes become association lists, and the readers become
state-passing functions.  Exceptions are modelled as explicit result
constructors (`EOFError` as `ReadResult.err`, `struct.error` as
`ReadResult.fail`, `AssertionError` as `AggOut.assertFail`).  Filenames are
modelled by their basenames (the spool directory path is a constant prefix on
every name in the Python code and carries no information).
-/

set_option maxRecDepth 4000

namespace Unified2

/-- Record header length (`HDR_LEN = 8`). -/
def HDR_LEN : Nat := 8

/-- Record type codes. -/
def PACKET : Nat := 2
def EVENT : Nat := 7
def EVENT_IP6 : Nat := 72
def EVENT_V2 : Nat := 104
def EVENT_IP6_V2 : Nat := 105
def EXTRA_DATA : Nat := 110

/-- Big-endian byte interpretation, as done by `struct.unpack(">L"...)`. -/
def beToNat (bs : List Nat) : Nat :=
  bs.foldl (fun acc b => acc * 256 + b) 0

/-- Big-endian encoding of a value into `k` bytes (the byte layout a
hand-built test buffer uses). -/
def beBytes : Nat → Nat → List Nat
  | 0, _ => []
  | k + 1, n => beBytes k (n / 256) ++ [n % 256]

/-- A single `struct` format item: `L` (4 bytes), `H` (2 bytes), `B` (1 byte)
or `S n` (an `ns` byte-string item such as `4s` / `16s`). -/
inductive Fmt where
  | L
  | H
  | B
  | S (n : Nat)
  deriving DecidableEq, Repr

/-- Byte width of one format item (`struct.calcsize` of the item). -/
def fmtSize : Fmt → Nat
  | .L => 4
  | .H => 2
  | .B => 1
  | .S n => n

/-- A field of a unified2 record (class `Field`): a name, an optional declared
byte length and an optional explicit format. -/
structure Field where
  name : String
  flen : Option Nat
  ffmt : Option Fmt
  deriving DecidableEq, Repr

/-- `Field.fmt`: the explicit format if given, otherwise derived from the
declared length (4 ⇒ `L`, 2 ⇒ `H`, 1 ⇒ `B`, anything else ⇒ no format). -/
def Field.fmt (f : Field) : Option Fmt :=
  match f.ffmt with
  | some x => some x
  | none =>
    match f.flen with
    | some 4 => some .L
    | some 2 => some .H
    | some 1 => some .B
    | _ => none

/-- Fields in a PACKET record (`PACKET_FIELDS`). -/
def PACKET_FIELDS : List Field := [
  ⟨"sensor-id", some 4, none⟩,
  ⟨"event-id", some 4, none⟩,
  ⟨"event-second", some 4, none⟩,
  ⟨"packet-second", some 4, none⟩,
  ⟨"packet-microsecond", some 4, none⟩,
  ⟨"linktype", some 4, none⟩,
  ⟨"length", some 4, none⟩,
  ⟨"data", none, none⟩]

/-- Fields in an EVENT record (`EVENT_FIELDS`). -/
def EVENT_FIELDS : List Field := [
  ⟨"sensor-id", some 4, none⟩,
  ⟨"event-id", some 4, none⟩,
  ⟨"event-second", some 4, none⟩,
  ⟨"event-microsecond", some 4, none⟩,
  ⟨"signature-id", some 4, none⟩,
  ⟨"generator-id", some 4, none⟩,
  ⟨"signature-revision", some 4, none⟩,
  ⟨"classification-id", some 4, none⟩,
  ⟨"priority", some 4, none⟩,
  ⟨"ip-source", some 4, some (.S 4)⟩,
  ⟨"ip-destination", some 4, some (.S 4)⟩,
  ⟨"sport-itype", some 2, none⟩,
  ⟨"dport-icode", some 2, none⟩,
  ⟨"protocol", some 1, none⟩,
  ⟨"impact-flag", some 1, none⟩,
  ⟨"impact", some 1, none⟩,
  ⟨"blocked", some 1, none⟩]

/-- Fields for an IPv6 event (`EVENT_IP6_FIELDS`); the declared length of the
address fields stays 4 in the source while the format is `16s`. -/
def EVENT_IP6_FIELDS : List Field := [
  ⟨"sensor-id", some 4, none⟩,
  ⟨"event-id", some 4, none⟩,
  ⟨"event-second", some 4, none⟩,
  ⟨"event-microsecond", some 4, none⟩,
  ⟨"signature-id", some 4, none⟩,
  ⟨"generator-id", some 4, none⟩,
  ⟨"signature-revision", some 4, none⟩,
  ⟨"classification-id", some 4, none⟩,
  ⟨"priority", some 4, none⟩,
  ⟨"ip-source", some 4, some (.S 16)⟩,
  ⟨"ip-destination", some 4, some (.S 16)⟩,
  ⟨"sport-itype", some 2, none⟩,
  ⟨"dport-icode", some 2, none⟩,
  ⟨"protocol", some 1, none⟩,
  ⟨"impact-flag", some 1, none⟩,
  ⟨"impact", some 1, none⟩,
  ⟨"blocked", some 1, none⟩]

/-- Extra fields appended for v2 events. -/
def V2_EXTRA_FIELDS : List Field := [
  ⟨"mpls-label", some 4, none⟩,
  ⟨"vlan-id", some 2, none⟩,
  ⟨"_pad2", some 2, none⟩]

/-- Fields in a v2 event (`EVENT_V2_FIELDS = EVENT_FIELDS + extras`). -/
def EVENT_V2_FIELDS : List Field := EVENT_FIELDS ++ V2_EXTRA_FIELDS

/-- Fields for an IPv6 v2 event. -/
def EVENT_IP6_V2_FIELDS : List Field := EVENT_IP6_FIELDS ++ V2_EXTRA_FIELDS

/-- Fields in an EXTRA_DATA record (`EXTRA_DATA_FIELDS`). -/
def EXTRA_DATA_FIELDS : List Field := [
  ⟨"event-type", some 4, none⟩,
  ⟨"event-length", some 4, none⟩,
  ⟨"sensor-id", some 4, none⟩,
  ⟨"event-id", some 4, none⟩,
  ⟨"event-second", some 4, none⟩,
  ⟨"type", some 4, none⟩,
  ⟨"data-type", some 4, none⟩,
  ⟨"data-length", some 4, none⟩,
  ⟨"data", none, none⟩]

/-- `AbstractDecoder.format` without the leading `>`: the format items of the
fields that have one. -/
def fmtsOf (fields : List Field) : List Fmt :=
  fields.filterMap Field.fmt

/-- `AbstractDecoder.fixed_len`: sum of the declared lengths of the fields
that have one. -/
def fixed_len (fields : List Field) : Nat :=
  (fields.filterMap Field.flen).sum

/-- A value produced by `struct.unpack`: a number or a byte string. -/
inductive Value where
  | num (n : Nat)
  | bytes (bs : List Nat)
  deriving DecidableEq, Repr

/-- `struct.unpack` over a byte list: parses each format item in order and
fails (`struct.error`) unless the buffer is consumed exactly. -/
def unpackFields : List Fmt → List Nat → Option (List Value)
  | [], [] => some []
  | [], _ :: _ => none
  | f :: fs, buf =>
    if buf.length < fmtSize f then none
    else
      let v : Value :=
        match f with
        | .S n => .bytes (buf.take n)
        | _ => .num (beToNat (buf.take (fmtSize f)))
      (unpackFields fs (buf.drop (fmtSize f))).map (fun vs => v :: vs)

/-- Encoding of one value at one format item (how a hand-built buffer lays
out one field, big-endian). -/
def encodeOne : Fmt → Value → List Nat
  | .S _, .bytes bs => bs
  | .S _, .num _ => []
  | f, .num n => beBytes (fmtSize f) n
  | _, .bytes _ => []

/-- Concatenated encoding of a value list at a format list. -/
def encodeVals : List Fmt → List Value → List Nat
  | f :: fs, v :: vs => encodeOne f v ++ encodeVals fs vs
  | _, _ => []

/-- A value fits a format item: numbers are in range, byte strings have the
declared width. -/
def valOk : Fmt → Value → Bool
  | .L, .num n => n < 256 ^ 4
  | .H, .num n => n < 256 ^ 2
  | .B, .num n => n < 256
  | .S k, .bytes bs => bs.length = k
  | _, _ => false

/-- A value list fits a format list item-wise (and has the same length). -/
def valsOk : List Fmt → List Value → Bool
  | [], [] => true
  | f :: fs, v :: vs => valOk f v && valsOk fs vs
  | _, _ => false

/-! ### Dictionaries

The record classes are Python dicts; we model them as association lists with
first-match lookup and replace-or-append assignment. -/

/-- Dict lookup (first matching key). -/
def dget {α : Type} : List (String × α) → String → Option α
  | [], _ => none
  | (k, v) :: rest, k' => if k = k' then some v else dget rest k'

/-- Dict assignment: replace the first binding of the key in place, or append
a new binding. -/
def dset {α : Type} : List (String × α) → String → α → List (String × α)
  | [], k, v => [(k, v)]
  | (k0, v0) :: rest, k, v =>
    if k0 = k then (k, v) :: rest else (k0, v0) :: dset rest k v

/-- Values stored in a `Packet` or `ExtraData` dict. -/
inductive PVal where
  | num (n : Nat)
  | bytes (bs : List Nat)
  deriving DecidableEq, Repr

/-- A `Packet` or `ExtraData` record: a plain dict. -/
abbrev PDict := List (String × PVal)

/-- Values stored in an `Event` dict: `None`, numbers, byte strings, the
packet list and the extra-data list. -/
inductive EVal where
  | vnone
  | num (n : Nat)
  | bytes (bs : List Nat)
  | packets (ps : List PDict)
  | extras (es : List PDict)
  deriving DecidableEq, Repr

/-- An `Event` record: a dict. -/
abbrev EDict := List (String × EVal)

/-- A decoded unified2 record. -/
inductive Record where
  | event (e : EDict)
  | packet (p : PDict)
  | extraData (x : PDict)
  | unknown (t : Nat) (buf : List Nat)
  deriving DecidableEq, Repr

/-- Whether a record is an `Event` (Python `isinstance(record, Event)`). -/
def Record.isEvent : Record → Bool
  | .event _ => true
  | _ => false

/-- Unpacked value to event-dict value. -/
def toEVal : Value → EVal
  | .num n => .num n
  | .bytes bs => .bytes bs

/-- Unpacked value to packet/extra-data-dict value. -/
def toPVal : Value → PVal
  | .num n => .num n
  | .bytes bs => .bytes bs

/-- The dict an `Event` starts with before the decoded fields are assigned:
empty attachment lists, and MPLS label / VLAN id explicitly unset. -/
def eventInit : EDict :=
  [("extra-data", .extras []), ("packets", .packets []),
   ("mpls-label", .vnone), ("vlan-id", .vnone)]

/-- `Event(zip(fields, parts))`: assign each field's name its unpacked value,
in declared order, on top of `eventInit`. -/
def eventOfParts (fields : List Field) (parts : List Value) : EDict :=
  ((fields.map Field.name).zip (parts.map toEVal)).foldl
    (fun d kv => dset d kv.1 kv.2) eventInit

/-- `EventDecoder.decode`: unpack the whole buffer with the record's format
and build the event dict. -/
def eventDecode (fields : List Field) (buf : List Nat) : Option EDict :=
  (unpackFields (fmtsOf fields) buf).map (eventOfParts fields)

/-- `Packet(*parts, data=...)` / `ExtraData(*parts, data=...)`: zip the field
names with the unpacked parts (zip truncates at the shorter list, so the
trailing no-format field is skipped), then set `data`. -/
def pdictOfParts (fields : List Field) (parts : List Value) (data : List Nat) :
    PDict :=
  dset (((fields.map Field.name).zip (parts.map toPVal)).foldl
    (fun d kv => dset d kv.1 kv.2) []) "data" (.bytes data)

/-- `PacketDecoder.decode` / `ExtraDataDecoder.decode`: unpack the fixed-length
prefix of the buffer, attach the remainder raw under `data`. -/
def fixedDecode (fields : List Field) (buf : List Nat) : Option PDict :=
  (unpackFields (fmtsOf fields) (buf.take (fixed_len fields))).map
    (fun parts => pdictOfParts fields parts (buf.drop (fixed_len fields)))

/-- `decode_record`: dispatch on the record type through `DECODERS`; an
unrecognized type yields `Unknown` with the type code and the raw buffer.
`none` models a `struct.error` escaping from a decoder. -/
def decode_record (record_type : Nat) (buf : List Nat) : Option Record :=
  if record_type = EVENT then (eventDecode EVENT_FIELDS buf).map .event
  else if record_type = EVENT_IP6 then (eventDecode EVENT_IP6_FIELDS buf).map .event
  else if record_type = EVENT_V2 then (eventDecode EVENT_V2_FIELDS buf).map .event
  else if record_type = EVENT_IP6_V2 then (eventDecode EVENT_IP6_V2_FIELDS buf).map .event
  else if record_type = PACKET then (fixedDecode PACKET_FIELDS buf).map .packet
  else if record_type = EXTRA_DATA then (fixedDecode EXTRA_DATA_FIELDS buf).map .extraData
  else some (.unknown record_type buf)

/-! ### Record reading from a stream -/

/-- A seekable file-like object: its contents and the current position. -/
structure FileObj where
  data : List Nat
  pos : Nat
  deriving DecidableEq, Repr

/-- `fileobj.read(n)`: return up to `n` bytes from the current position and
advance by the number of bytes returned. -/
def fread (f : FileObj) (n : Nat) : List Nat × FileObj :=
  let bs := (f.data.drop f.pos).take n
  (bs, ⟨f.data, f.pos + bs.length⟩)

/-- The outcome of `read_record`: clean end-of-stream (`None`), a truncated
record (`EOFError`, raised after rewinding), a decoder failure
(`struct.error`, propagated without rewinding), or a decoded record. -/
inductive ReadResult where
  | eof
  | err
  | fail
  | ok (r : Record)
  deriving DecidableEq, Repr

/-- `read_record(fileobj)`: record the position, read an 8-byte header (zero
bytes ⇒ clean EOF; a short header ⇒ rewind and raise `EOFError`), unpack
`{type, length}` big-endian, read exactly `length` payload bytes (short ⇒
rewind and raise `EOFError`), then decode. -/
def read_record (f : FileObj) : ReadResult × FileObj :=
  let offset := f.pos
  let (buf, f1) := fread f HDR_LEN
  if buf.isEmpty then (.eof, f1)
  else if buf.length < HDR_LEN then (.err, ⟨f1.data, offset⟩)
  else
    let rtype := beToNat (buf.take 4)
    let rlen := beToNat (buf.drop 4)
    let (buf2, f2) := fread f1 rlen
    if buf2.length < rlen then (.err, ⟨f2.data, offset⟩)
    else
      match decode_record rtype buf2 with
      | some r => (.ok r, f2)
      | none => (.fail, f2)

/-! ### Aggregator -/

/-- The outcome of an `Aggregator` operation: either a returned value (an
event or `None`) or a failed `assert`. -/
inductive AggOut where
  | assertFail
  | out (r : Option Record)
  deriving DecidableEq, Repr

/-- Whether an aggregator outcome is a failed `assert`. -/
def AggOut.isFail : AggOut → Bool
  | .assertFail => true
  | _ => false

/-- The aggregator state: the record queue (a FIFO deque) plus a count of
warning-level diagnostics emitted (`LOG.warn` calls). -/
structure Aggregator where
  queue : List Record
  warnings : Nat
  deriving DecidableEq, Repr

/-- In `Event.packets` terms: `event["packets"]`, defaulting to the empty
list (Python events always carry the key, installed at construction). -/
def getPackets (d : EDict) : List PDict :=
  match dget d "packets" with
  | some (.packets ps) => ps
  | _ => []

/-- `event["extra-data"]`, same convention. -/
def getExtras (d : EDict) : List PDict :=
  match dget d "extra-data" with
  | some (.extras es) => es
  | _ => []

/-- `event["packets"].append(record)`. -/
def eventAddPacket (d : EDict) (p : PDict) : EDict :=
  dset d "packets" (.packets (getPackets d ++ [p]))

/-- `event["extra-data"].append(record)`. -/
def eventAddExtra (d : EDict) (x : PDict) : EDict :=
  dset d "extra-data" (.extras (getExtras d ++ [x]))

/-- The drain loop of `Aggregator.flush`: pop each remaining record, assert it
is not an `Event`, and route packets and extra data into the head event. -/
def flushGo (e : EDict) (q : List Record) (w : Nat) : AggOut × Aggregator :=
  match q with
  | [] => (.out (some (.event e)), ⟨[], w⟩)
  | r :: rest =>
    match r with
    | .event _ => (.assertFail, ⟨rest, w⟩)
    | .packet p => flushGo (eventAddPacket e p) rest w
    | .extraData x => flushGo (eventAddExtra e x) rest w
    | .unknown _ _ => flushGo e rest w

/-- `Aggregator.flush`: `None` on an empty queue; otherwise pop the head,
assert it is an `Event`, drain the rest into it and return it. -/
def Aggregator.flush (a : Aggregator) : AggOut × Aggregator :=
  match a.queue with
  | [] => (.out none, a)
  | r :: rest =>
    match r with
    | .event e => flushGo e rest a.warnings
    | _ => (.assertFail, ⟨rest, a.warnings⟩)

/-- `Aggregator.add`: an `Event` first flushes a non-empty queue (returning
the completed previous event) and is then enqueued; a non-event is enqueued
when a queue is open and otherwise discarded with a warning diagnostic. -/
def Aggregator.add (a : Aggregator) (record : Record) : AggOut × Aggregator :=
  match record with
  | .event _ =>
    if a.queue.isEmpty then (.out none, ⟨a.queue ++ [record], a.warnings⟩)
    else
      match a.flush with
      | (.out ev, a1) => (.out ev, ⟨a1.queue ++ [record], a1.warnings⟩)
      | (.assertFail, a1) => (.assertFail, a1)
  | _ =>
    if a.queue.isEmpty then (.out none, ⟨a.queue, a.warnings + 1⟩)
    else (.out none, ⟨a.queue ++ [record], a.warnings⟩)

/-- Feed a list of records to an aggregator through `add`, collecting the
outcome of every call. -/
def runAdds (a : Aggregator) : List Record → List AggOut × Aggregator
  | [] => ([], a)
  | r :: rs =>
    let (o, a1) := a.add r
    let (os, a2) := runAdds a1 rs
    (o :: os, a2)

/-- The queue shape `add` maintains: empty, or an `Event` head with no other
`Event` behind it. -/
def goodQueue : List Record → Bool
  | [] => true
  | r :: rest => r.isEvent && rest.all (fun x => !x.isEvent)

/-! ### File readers

A filesystem is an association of filenames (basenames) to contents; an open
file is a name plus a position, re-read from the filesystem on every call (a
Python handle sees the current contents of the file it has open). -/

/-- A filesystem / spool-directory snapshot. -/
abbrev FS := List (String × List Nat)

/-- Contents of a file, empty if absent. -/
def fsRead (fs : FS) (name : String) : List Nat :=
  (((fs.find? (fun p => p.1 == name))).map Prod.snd).getD []

/-- Whether a file exists (`os.path.exists`). -/
def fsHas (fs : FS) (name : String) : Bool :=
  (fs.map Prod.fst).contains name

/-- An open file handle: a filename and the current position. -/
structure OpenFile where
  name : String
  pos : Nat
  deriving DecidableEq, Repr

/-- `read_record` on an open handle against the current filesystem. -/
def readAt (fs : FS) (of : OpenFile) : ReadResult × OpenFile :=
  let (r, f1) := read_record ⟨fsRead fs of.name, of.pos⟩
  (r, ⟨of.name, f1.pos⟩)

/-- `FileRecordReader` state: the remaining filenames and the open file. -/
structure FileRecordReader where
  files : List String
  cur : OpenFile
  deriving DecidableEq, Repr

/-- `FileRecordReader.__init__(*files)`: open the first file, keep the rest. -/
def FileRecordReader.init (f : String) (rest : List String) : FileRecordReader :=
  ⟨rest, ⟨f, 0⟩⟩

/-- `FileRecordReader.next`: read a record from the current file; on clean
end-of-stream advance to the next file and keep going; `EOFError` and
`struct.error` propagate.  The fuel bounds the `while 1` loop; one unit per
file suffices. -/
def FileRecordReader.next : Nat → FileRecordReader → FS → ReadResult × FileRecordReader
  | 0, s, _ => (.eof, s)
  | n + 1, s, fs =>
    match readAt fs s.cur with
    | (.ok r, c1) => (.ok r, ⟨s.files, c1⟩)
    | (.err, c1) => (.err, ⟨s.files, c1⟩)
    | (.fail, c1) => (.fail, ⟨s.files, c1⟩)
    | (.eof, c1) =>
      match s.files with
      | [] => (.eof, ⟨[], c1⟩)
      | f :: rest => FileRecordReader.next n ⟨rest, ⟨f, 0⟩⟩ fs

/-- Outcome of `FileEventReader.next`: an event or `None`, or a propagated
exception. -/
inductive FEResult where
  | err
  | fail
  | assertFail
  | out (r : Option Record)
  deriving DecidableEq, Repr

/-- `FileEventReader` state. -/
structure FileEventReader where
  reader : FileRecordReader
  aggregator : Aggregator
  deriving DecidableEq, Repr

/-- `FileEventReader.__init__(*files)`. -/
def FileEventReader.init (f : String) (rest : List String) : FileEventReader :=
  ⟨FileRecordReader.init f rest, ⟨[], 0⟩⟩

/-- `FileEventReader.next`: pull records, feed the aggregator, return the
first completed event; on end-of-stream flush the aggregator.  The fuel
bounds the `while 1` loop (one unit per record consumed). -/
def FileEventReader.next : Nat → FileEventReader → FS → FEResult × FileEventReader
  | 0, s, _ => (.out none, s)
  | n + 1, s, fs =>
    match FileRecordReader.next (s.reader.files.length + 1) s.reader fs with
    | (.err, rr) => (.err, ⟨rr, s.aggregator⟩)
    | (.fail, rr) => (.fail, ⟨rr, s.aggregator⟩)
    | (.eof, rr) =>
      match s.aggregator.flush with
      | (.out ev, ag) => (.out ev, ⟨rr, ag⟩)
      | (.assertFail, ag) => (.assertFail, ⟨rr, ag⟩)
    | (.ok r, rr) =>
      match s.aggregator.add r with
      | (.out (some ev), ag) => (.out (some ev), ⟨rr, ag⟩)
      | (.out none, ag) => FileEventReader.next n ⟨rr, ag⟩ fs
      | (.assertFail, ag) => (.assertFail, ⟨rr, ag⟩)

/-- Successive outcomes of `k` calls to `FileEventReader.next`. -/
def feStream : Nat → Nat → FileEventReader → FS → List FEResult
  | 0, _, _, _ => []
  | k + 1, fuel, s, fs =>
    let (r, s1) := FileEventReader.next fuel s fs
    r :: feStream k fuel s1 fs

/-! ### Spool record reader

`time.sleep`-based tail polling (the public `next` with `tail=True`) is pure
re-invocation of `_next` and is not modelled; with `tail=False` the public
`next` coincides with `_next`.  Rollover-hook invocations are collected as an
output list of `(closing filename | None, opening filename)` pairs. -/

/-- One rollover-hook invocation. -/
abbrev RolloverCall := Option String × String

/-- Outcome of `SpoolRecordReader._next`: a record or `None` (an `EOFError`
from the inner reader is caught, never propagated), or a propagated
`struct.error`. -/
inductive SpoolRes where
  | fail
  | out (r : Option Record)
  deriving DecidableEq, Repr

/-- `SpoolRecordReader` state: the filename-prefix filter and the currently
open file, if any. -/
structure SpoolRecordReader where
  pfx : String
  fileobj : Option OpenFile
  deriving DecidableEq, Repr

/-- Code-point comparison of characters. -/
def charLe (c d : Char) : Bool := Nat.ble c.toNat d.toNat

/-- Lexicographic code-point order on character lists (Python's string
order). -/
def listLe : List Char → List Char → Bool
  | [], _ => true
  | _ :: _, [] => false
  | c :: cs, d :: ds =>
    if c.toNat < d.toNat then true
    else if d.toNat < c.toNat then false
    else listLe cs ds

/-- Lexicographic code-point order on strings. -/
def strLe (a b : String) : Bool := listLe a.data b.data

/-- `fnmatch` against the filter `pfx*`: the name starts with the prefix
string. -/
def strStarts (a p : String) : Bool := p.data.isPrefixOf a.data

/-- Insert a string into a (sorted) list, keeping it sorted. -/
def insertSorted (s : String) : List String → List String
  | [] => [s]
  | x :: xs => if strLe s x then s :: x :: xs else x :: insertSorted s xs

/-- Lexicographic insertion sort, modelling Python `sorted` on strings. -/
def sortStrings : List String → List String
  | [] => []
  | x :: xs => insertSorted x (sortStrings xs)

/-- The filenames of a directory that match the filter `pfx*`, unsorted. -/
def matchingNames (fs : FS) (pfx : String) : List String :=
  (fs.map Prod.fst).filter (fun n => strStarts n pfx)

/-- `SpoolRecordReader.get_filenames`: the matching filenames, sorted. -/
def SpoolRecordReader.get_filenames (s : SpoolRecordReader) (fs : FS) :
    List String :=
  sortStrings (matchingNames fs s.pfx)

/-- `SpoolRecordReader.open_file`: close the current handle if any, open the
named file at position 0, and invoke the rollover hook with the closing and
opening filenames. -/
def SpoolRecordReader.open_file (s : SpoolRecordReader) (filename : String) :
    SpoolRecordReader × RolloverCall :=
  let closed := s.fileobj.map OpenFile.name
  (⟨s.pfx, some ⟨filename, 0⟩⟩, (closed, filename))

/-- Replace the open file of a spool reader. -/
def SpoolRecordReader.setFile (s : SpoolRecordReader) (of : OpenFile) :
    SpoolRecordReader :=
  ⟨s.pfx, some of⟩

/-- `SpoolRecordReader.open_next`: with no open file, open the first listed
match; if the current file vanished from the listing, open the first match;
otherwise open the entry after the current one in the sorted listing, or
nothing if the current file is last.  Returns the opened filename (if any),
the new state, and the rollover calls made. -/
def SpoolRecordReader.open_next (s : SpoolRecordReader) (fs : FS) :
    Option String × SpoolRecordReader × List RolloverCall :=
  let filenames := s.get_filenames fs
  if filenames.isEmpty then (none, s, [])
  else
    match s.fileobj with
    | none =>
      let (s1, c) := s.open_file (filenames.headD "")
      (some (filenames.headD ""), s1, [c])
    | some of =>
      if of.name ∈ filenames then
        let i := filenames.indexOf of.name
        if i + 1 < filenames.length then
          let (s1, c) := s.open_file (filenames.getD (i + 1) "")
          (some (filenames.getD (i + 1) ""), s1, [c])
        else (none, s, [])
      else
        let (s1, c) := s.open_file (filenames.headD "")
        (some (filenames.headD ""), s1, [c])

/-- `SpoolRecordReader.tell`: the current `(filename, offset)` cursor, or
`(None, None)` if no file is open. -/
def SpoolRecordReader.tell (s : SpoolRecordReader) :
    Option String × Option Nat :=
  match s.fileobj with
  | some of => (some of.name, some of.pos)
  | none => (none, none)

/-- The `while True` loop of `_next` after a clean end-of-stream: open the
next file and read from it, until a record appears or no further file is
available.  The fuel bounds the loop; `fs.length + 2` iterations always
suffice since each open moves forward in a fixed listing. -/
def spoolLoop : Nat → SpoolRecordReader → FS →
    SpoolRes × SpoolRecordReader × List RolloverCall
  | 0, s, _ => (.out none, s, [])
  | n + 1, s, fs =>
    match s.open_next fs with
    | (none, s1, hs) => (.out none, s1, hs)
    | (some _, s1, hs) =>
      match s1.fileobj with
      | none => (.out none, s1, hs)
      | some of =>
        match readAt fs of with
        | (.err, of1) => (.out none, s1.setFile of1, hs)
        | (.fail, of1) => (.fail, s1.setFile of1, hs)
        | (.ok r, of1) => (.out (some r), s1.setFile of1, hs)
        | (.eof, of1) =>
          let (res, s2, hs2) := spoolLoop n (s1.setFile of1) fs
          (res, s2, hs ++ hs2)

/-- The body of `_next` once a file is open: read a record; `EOFError` is
caught and becomes `None`; clean end-of-stream enters the open-next loop. -/
def spoolMain (s : SpoolRecordReader) (fs : FS) :
    SpoolRes × SpoolRecordReader × List RolloverCall :=
  match s.fileobj with
  | none => (.out none, s, [])
  | some of =>
    match readAt fs of with
    | (.err, of1) => (.out none, s.setFile of1, [])
    | (.fail, of1) => (.fail, s.setFile of1, [])
    | (.ok r, of1) => (.out (some r), s.setFile of1, [])
    | (.eof, of1) =>
      let (res, s2, hs2) := spoolLoop (fs.length + 2) (s.setFile of1) fs
      (res, s2, hs2)

/-- `SpoolRecordReader._next`: open a file first if none is open (returning
`None` if none is available), then run the read body. -/
def SpoolRecordReader.next1 (s : SpoolRecordReader) (fs : FS) :
    SpoolRes × SpoolRecordReader × List RolloverCall :=
  match s.fileobj with
  | none =>
    match s.open_next fs with
    | (none, s1, hs) => (.out none, s1, hs)
    | (some _, s1, hs) =>
      let (res, s2, hs2) := spoolMain s1 fs
      (res, s2, hs ++ hs2)
  | some _ => spoolMain s fs

/-- `SpoolRecordReader.__init__`: start with no file open; when a truthy
`init_filename` names an existing file, open it (firing the rollover hook)
and seek to `init_offset`. -/
def spoolInit (pfx : String) (initFilename : Option String) (initOffset : Nat)
    (fs : FS) : SpoolRecordReader × List RolloverCall :=
  let s0 : SpoolRecordReader := ⟨pfx, none⟩
  match initFilename with
  | none => (s0, [])
  | some f =>
    if f = "" then (s0, [])
    else if fsHas fs f then
      let (s1, c) := s0.open_file f
      (⟨s1.pfx, some ⟨f, initOffset⟩⟩, [c])
    else (s0, [])

/-- Successive outcomes of `n` calls to `_next` over a fixed directory. -/
def spoolStream : Nat → SpoolRecordReader → FS → List SpoolRes
  | 0, _, _ => []
  | n + 1, s, fs =>
    let (r, s1, _) := s.next1 fs
    r :: spoolStream n s1 fs

/-! ### Lemmas about `read_record` -/

/-- An `EOFError` from `read_record` leaves the stream at the recorded
offset: the file object is unchanged. -/
theorem read_record_err_state (f g : FileObj) (h : read_record f = (.err, g)) :
    g = f := by
  unfold read_record fread at h
  dsimp only at h
  split at h
  · simp at h
  · split at h
    · exact (congrArg Prod.snd h).symm
    · split at h
      · exact (congrArg Prod.snd h).symm
      · split at h <;> simp at h

/-- Clean end-of-stream from `read_record` also leaves the file object
unchanged (zero bytes were read). -/
theorem read_record_eof_state (f g : FileObj) (h : read_record f = (.eof, g)) :
    g = f := by
  unfold read_record fread at h
  dsimp only at h
  split at h
  case isTrue hemp =>
    have hlen : ((f.data.drop f.pos).take HDR_LEN).length = 0 := by
      simp only [List.isEmpty_iff_length_eq_zero] at hemp
      exact hemp
    injection h with h1 h2
    subst h2
    rw [hlen]
    rfl
  case isFalse =>
    split at h
    · simp at h
    · split at h
      · simp at h
      · split at h <;> simp at h

/-- With no byte available at the record boundary, `read_record` signals
clean end-of-stream. -/
theorem read_record_eof_of_no_bytes (f : FileObj) (h : f.data.length ≤ f.pos) :
    read_record f = (.eof, f) := by
  have hd : f.data.drop f.pos = [] := List.drop_eq_nil_of_le h
  unfold read_record fread
  dsimp only
  rw [hd]
  simp

/-- With at least one but fewer than `HDR_LEN` bytes available,
`read_record` raises the truncated condition and rewinds. -/
theorem read_record_err_of_short_header (f : FileObj)
    (h1 : f.pos < f.data.length) (h2 : f.data.length < f.pos + HDR_LEN) :
    read_record f = (.err, f) := by
  have hA : ((f.data.drop f.pos).take HDR_LEN).isEmpty = false := by
    rw [Bool.eq_false_iff]
    intro hT
    rw [List.isEmpty_iff_length_eq_zero] at hT
    simp only [List.length_take, List.length_drop, HDR_LEN] at hT
    omega
  have hB : ((f.data.drop f.pos).take HDR_LEN).length < HDR_LEN := by
    simp only [List.length_take, List.length_drop, HDR_LEN] at *
    omega
  unfold read_record fread
  dsimp only
  rw [hA]
  simp only [Bool.false_eq_true, if_false, if_pos hB]

/-- With a complete header but fewer payload bytes than the declared length,
`read_record` raises the truncated condition and rewinds. -/
theorem read_record_err_of_short_payload (f : FileObj)
    (h1 : f.pos + HDR_LEN ≤ f.data.length)
    (h2 : f.data.length <
      f.pos + HDR_LEN + beToNat (((f.data.drop f.pos).take HDR_LEN).drop 4)) :
    read_record f = (.err, f) := by
  have hlen : ((f.data.drop f.pos).take HDR_LEN).length = HDR_LEN := by
    simp only [List.length_take, List.length_drop]
    have : (0:Nat) < HDR_LEN := by simp [HDR_LEN]
    omega
  have hA : ((f.data.drop f.pos).take HDR_LEN).isEmpty = false := by
    rw [Bool.eq_false_iff]
    intro hT
    rw [List.isEmpty_iff_length_eq_zero] at hT
    rw [hlen] at hT
    simp [HDR_LEN] at hT
  unfold read_record fread
  dsimp only
  rw [hA, hlen]
  have hB : ¬ (HDR_LEN < HDR_LEN) := by omega
  rw [if_neg (by simp), if_neg hB]
  have hC : ((f.data.drop (f.pos + HDR_LEN)).take
      (beToNat (((f.data.drop f.pos).take HDR_LEN).drop 4))).length <
      beToNat (((f.data.drop f.pos).take HDR_LEN).drop 4) := by
    simp only [List.length_take, List.length_drop]
    omega
  rw [if_pos hC]

/-- C1: `read_record` returns the clean end-of-stream signal when zero bytes
are available at a record boundary; with one to seven header bytes, or with a
complete header but fewer payload bytes than the declared length, it rewinds
the stream to the recorded position and raises the distinct truncated
condition (`EOFError`); consequently any truncated outcome leaves the stream
position unchanged and a second attempt from the same position raises the
same condition. -/
theorem C1_read_record_boundary (f : FileObj) :
    (f.data.length ≤ f.pos → read_record f = (.eof, f)) ∧
    (f.pos < f.data.length → f.data.length < f.pos + HDR_LEN →
      read_record f = (.err, f)) ∧
    (f.pos + HDR_LEN ≤ f.data.length →
      f.data.length <
        f.pos + HDR_LEN + beToNat (((f.data.drop f.pos).take HDR_LEN).drop 4) →
      read_record f = (.err, f)) ∧
    (∀ g, read_record f = (.err, g) → g = f ∧ read_record g = (.err, g)) := by
  refine ⟨read_record_eof_of_no_bytes f, read_record_err_of_short_header f,
    read_record_err_of_short_payload f, ?_⟩
  intro g h
  have hg := read_record_err_state f g h
  subst hg
  exact ⟨rfl, h⟩

/-- Witness for C1 at concrete streams: an empty stream, a 3-byte stream
(short header) and a stream with a header declaring 5 payload bytes but
providing none. -/
theorem C1_witness :
    read_record ⟨[], 0⟩ = (.eof, ⟨[], 0⟩) ∧
    read_record ⟨[0, 0, 0], 0⟩ = (.err, ⟨[0, 0, 0], 0⟩) ∧
    read_record ⟨[0, 0, 0, 7, 0, 0, 0, 5], 0⟩ =
      (.err, ⟨[0, 0, 0, 7, 0, 0, 0, 5], 0⟩) ∧
    ((⟨[0, 0, 0], 0⟩ : FileObj) = ⟨[0, 0, 0], 0⟩ ∧
      read_record ⟨[0, 0, 0], 0⟩ = (.err, ⟨[0, 0, 0], 0⟩)) :=
  ⟨(C1_read_record_boundary ⟨[], 0⟩).1 (by decide),
   (C1_read_record_boundary ⟨[0, 0, 0], 0⟩).2.1 (by decide) (by decide),
   (C1_read_record_boundary ⟨[0, 0, 0, 7, 0, 0, 0, 5], 0⟩).2.2.1
     (by decide) (by decide),
   (C1_read_record_boundary ⟨[0, 0, 0], 0⟩).2.2.2 ⟨[0, 0, 0], 0⟩ (by decide)⟩

/-- C8: `decode_record` on any type code outside the recognized set returns
`Unknown` carrying exactly that type code and exactly that buffer, and never
raises (the result is always `some`). -/
theorem C8_decode_unknown (t : Nat) (buf : List Nat)
    (h1 : t ≠ EVENT) (h2 : t ≠ EVENT_IP6) (h3 : t ≠ EVENT_V2)
    (h4 : t ≠ EVENT_IP6_V2) (h5 : t ≠ PACKET) (h6 : t ≠ EXTRA_DATA) :
    decode_record t buf = some (.unknown t buf) := by
  simp [decode_record, h1, h2, h3, h4, h5, h6]

/-- Witness for C8 at type code 42. -/
theorem C8_witness : decode_record 42 [1, 2, 3] = some (.unknown 42 [1, 2, 3]) :=
  C8_decode_unknown 42 [1, 2, 3] (by decide) (by decide) (by decide)
    (by decide) (by decide) (by decide)

/-! ### Aggregator lemmas -/

/-- When the drain loop of `flush` returns a value, the queue has been fully
drained and the warning count is unchanged. -/
theorem flushGo_out_shape (e : EDict) (q : List Record) (w : Nat)
    (o : Option Record) (a1 : Aggregator) (h : flushGo e q w = (.out o, a1)) :
    a1 = ⟨[], w⟩ := by
  induction q generalizing e with
  | nil =>
    simp only [flushGo] at h
    exact (congrArg Prod.snd h).symm
  | cons r rest ih =>
    cases r with
    | event e2 => simp [flushGo] at h
    | packet p => exact ih (eventAddPacket e p) h
    | extraData x => exact ih (eventAddExtra e x) h
    | unknown t b => exact ih e h

/-- On a queue with no `Event` behind the head, the drain loop of `flush`
completes and returns an event. -/
theorem flushGo_no_event (e : EDict) (q : List Record) (w : Nat)
    (h : ∀ r ∈ q, r.isEvent = false) :
    ∃ e2, flushGo e q w = (.out (some (.event e2)), ⟨[], w⟩) := by
  induction q generalizing e with
  | nil => exact ⟨e, rfl⟩
  | cons r rest ih =>
    cases r with
    | event e2 =>
      have := h (.event e2) (List.mem_cons_self _ _)
      simp [Record.isEvent] at this
    | packet p =>
      exact ih (eventAddPacket e p) (fun r hr => h r (List.mem_cons_of_mem _ hr))
    | extraData x =>
      exact ih (eventAddExtra e x) (fun r hr => h r (List.mem_cons_of_mem _ hr))
    | unknown t b =>
      exact ih e (fun r hr => h r (List.mem_cons_of_mem _ hr))

/-- Unfolding of the queue invariant on a non-empty queue. -/
theorem goodQueue_cons (r : Record) (rest : List Record)
    (h : goodQueue (r :: rest) = true) :
    r.isEvent = true ∧ ∀ x ∈ rest, x.isEvent = false := by
  simp only [goodQueue, Bool.and_eq_true, List.all_eq_true] at h
  exact ⟨h.1, fun x hx => by simpa using h.2 x hx⟩

/-- On a queue satisfying the invariant, `flush` returns a value (no failed
assertion), empties the queue and keeps the warning count. -/
theorem flush_good (a : Aggregator) (h : goodQueue a.queue = true) :
    ∃ o a1, a.flush = (.out o, a1) ∧ a1.queue = [] ∧ a1.warnings = a.warnings := by
  match hq : a.queue with
  | [] =>
    refine ⟨none, a, ?_, hq, rfl⟩
    simp [Aggregator.flush, hq]
  | r :: rest =>
    rw [hq] at h
    obtain ⟨hr, hrest⟩ := goodQueue_cons r rest h
    cases r with
    | event e =>
      obtain ⟨e2, he2⟩ := flushGo_no_event e rest a.warnings hrest
      exact ⟨some (.event e2), ⟨[], a.warnings⟩,
        by simp [Aggregator.flush, hq, he2], rfl, rfl⟩
    | packet p => simp [Record.isEvent] at hr
    | extraData x => simp [Record.isEvent] at hr
    | unknown t b => simp [Record.isEvent] at hr

/-- `add` on a non-event record: enqueue if a queue is open, otherwise
discard with a warning. -/
theorem add_nonevent (a : Aggregator) (r : Record) (hr : r.isEvent = false) :
    a.add r = if a.queue.isEmpty then (.out none, ⟨a.queue, a.warnings + 1⟩)
      else (.out none, ⟨a.queue ++ [r], a.warnings⟩) := by
  cases r with
  | event e => simp [Record.isEvent] at hr
  | packet p => rfl
  | extraData x => rfl
  | unknown t b => rfl

/-- Appending a non-event to a non-empty invariant queue preserves the
invariant. -/
theorem goodQueue_append_nonevent (q : List Record) (r : Record)
    (hq : goodQueue q = true) (hr : r.isEvent = false) (hne : q ≠ []) :
    goodQueue (q ++ [r]) = true := by
  match q with
  | [] => exact absurd rfl hne
  | x :: rest =>
    obtain ⟨hx, hrest⟩ := goodQueue_cons x rest hq
    simp only [List.cons_append, goodQueue, hx, Bool.true_and, List.all_eq_true,
      List.mem_append, List.mem_singleton]
    rintro y (hy | hy)
    · simp [hrest y hy]
    · simp [hy, hr]

/-- `add` preserves the queue invariant and never hits a failed assertion. -/
theorem add_good (a : Aggregator) (r : Record) (h : goodQueue a.queue = true) :
    ∃ o a1, a.add r = (.out o, a1) ∧ goodQueue a1.queue = true := by
  by_cases hr : r.isEvent = true
  · obtain ⟨e, he⟩ : ∃ e, r = .event e := by
      cases r <;> simp_all [Record.isEvent]
    subst he
    by_cases hq : a.queue.isEmpty
    · refine ⟨none, ⟨a.queue ++ [.event e], a.warnings⟩,
        by simp [Aggregator.add, hq], ?_⟩
      rw [List.isEmpty_iff] at hq
      simp [hq, goodQueue, Record.isEvent]
    · obtain ⟨o, a1, hf, hq1, hw1⟩ := flush_good a h
      refine ⟨o, ⟨a1.queue ++ [.event e], a1.warnings⟩, ?_, ?_⟩
      · simp only [Aggregator.add, hq, Bool.false_eq_true, if_false, hf]
      · simp [hq1, goodQueue, Record.isEvent]
  · rw [Bool.not_eq_true] at hr
    rw [add_nonevent a r hr]
    by_cases hq : a.queue.isEmpty
    · rw [List.isEmpty_iff] at hq
      exact ⟨none, ⟨a.queue, a.warnings + 1⟩, by simp [hq], by simp [hq, goodQueue]⟩
    · rw [List.isEmpty_iff] at hq
      exact ⟨none, ⟨a.queue ++ [r], a.warnings⟩, by simp [List.isEmpty_iff, hq],
        goodQueue_append_nonevent a.queue r h hr hq⟩

/-- Feeding any record list through `add` preserves the queue invariant and
never hits a failed assertion. -/
theorem runAdds_good (rs : List Record) : ∀ a : Aggregator,
    goodQueue a.queue = true →
    goodQueue (runAdds a rs).2.queue = true ∧
    (runAdds a rs).1.all (fun o => !o.isFail) = true := by
  induction rs with
  | nil => exact fun a h => ⟨h, rfl⟩
  | cons r rest ih =>
    intro a h
    obtain ⟨o, a1, hadd, h1⟩ := add_good a r h
    obtain ⟨hg, hall⟩ := ih a1 h1
    simp only [runAdds, hadd]
    refine ⟨hg, ?_⟩
    rw [List.all_cons]
    have ho : (AggOut.out o).isFail = false := rfl
    rw [ho]
    simpa using hall

/-- C9: starting from an empty aggregator, after any sequence of `add` calls
the queue is empty or headed by an `Event` with no other `Event` in it; no
`add` call ever hits a failed assertion, and `flush` on the resulting state
cannot hit one either. -/
theorem C9_aggregator_invariant (rs : List Record) :
    goodQueue (runAdds ⟨[], 0⟩ rs).2.queue = true ∧
    (runAdds ⟨[], 0⟩ rs).1.all (fun o => !o.isFail) = true ∧
    ((runAdds ⟨[], 0⟩ rs).2.flush).1.isFail = false := by
  have h := runAdds_good rs ⟨[], 0⟩ rfl
  refine ⟨h.1, h.2, ?_⟩
  obtain ⟨o, a1, hf, _, _⟩ := flush_good _ h.1
  simp [hf, AggOut.isFail]

/-- C10: `flush` silently drops an `Unknown` that follows the `Event` head:
the flush outcome with the `Unknown` present equals the outcome without it,
and in the minimal case the completed event is returned with its packet and
extra-data lists untouched. -/
theorem C10_flush_drops_unknown (e : EDict) (t : Nat) (buf : List Nat)
    (rest : List Record) (w : Nat) :
    Aggregator.flush ⟨.event e :: .unknown t buf :: rest, w⟩ =
      Aggregator.flush ⟨.event e :: rest, w⟩ ∧
    (Aggregator.flush ⟨[.event e, .unknown t buf], w⟩).1 =
      .out (some (.event e)) :=
  ⟨rfl, rfl⟩

/-! ### The worked aggregation example -/

/-- Event A of the aggregation-ordering example. -/
def dA : EDict := eventInit ++ [("sensor-id", .num 1)]

/-- Packet p1 of the example. -/
def p1 : PDict := [("sensor-id", .num 1), ("event-id", .num 21)]

/-- ExtraData e1 of the example. -/
def x1 : PDict := [("type", .num 5)]

/-- Packet p2 of the example. -/
def p2 : PDict := [("sensor-id", .num 1), ("event-id", .num 22)]

/-- Event B of the example. -/
def dB : EDict := eventInit ++ [("sensor-id", .num 9)]

/-- Event A as completed by the flush: packets `[p1, p2]` and extra-data
`[e1]`, in arrival order. -/
def dAdone : EDict :=
  [("extra-data", .extras [x1]), ("packets", .packets [p1, p2]),
   ("mpls-label", .vnone), ("vlan-id", .vnone), ("sensor-id", .num 1)]

/-- C5: the four `add` cases — an `Event` on a non-empty queue first returns
the flushed previous event and restarts the queue with itself; an `Event` on
an empty queue is enqueued silently; a non-event on a non-empty queue is
appended silently; a non-event on an empty queue is discarded with a warning
diagnostic — and, on the worked example `[Event A, p1, e1, p2, Event B]`,
the fifth call returns A with packets `[p1, p2]` and extra-data `[e1]` while
B remains queued. -/
theorem C5_aggregator_add (a : Aggregator) (e : EDict) (r : Record) :
    (a.queue ≠ [] →
      (a.add (.event e)).1 = (a.flush).1 ∧
      (∀ o a1, a.flush = (.out o, a1) →
        (a.add (.event e)).2 = ⟨[.event e], a.warnings⟩)) ∧
    (a.queue = [] → a.add (.event e) = (.out none, ⟨[.event e], a.warnings⟩)) ∧
    (r.isEvent = false → a.queue ≠ [] →
      a.add r = (.out none, ⟨a.queue ++ [r], a.warnings⟩)) ∧
    (r.isEvent = false → a.queue = [] →
      a.add r = (.out none, ⟨[], a.warnings + 1⟩)) ∧
    runAdds ⟨[], 0⟩ [.event dA, .packet p1, .extraData x1, .packet p2, .event dB] =
      ([.out none, .out none, .out none, .out none, .out (some (.event dAdone))],
       ⟨[.event dB], 0⟩) := by
  have hq0 : a.queue.isEmpty = (a.queue = [] : Bool) := by
    cases a.queue <;> simp
  refine ⟨?_, ?_, ?_, ?_, by decide⟩
  · intro hne
    have hq : a.queue.isEmpty = false := by
      rw [hq0]; simpa using hne
    constructor
    · simp only [Aggregator.add, hq, Bool.false_eq_true, if_false]
      rcases hf : a.flush with ⟨fst, a1⟩
      cases fst <;> simp
    · intro o a1 hf
      simp only [Aggregator.add, hq, Bool.false_eq_true, if_false, hf]
      match hqq : a.queue with
      | [] => exact absurd hqq hne
      | rr :: rest =>
        rw [Aggregator.flush] at hf
        rw [hqq] at hf
        cases rr with
        | event e2 =>
          have := flushGo_out_shape e2 rest a.warnings o a1 hf
          subst this
          simp
        | packet p => simp at hf
        | extraData xx => simp at hf
        | unknown t b => simp at hf
  · intro hne
    have hq : a.queue.isEmpty = true := by rw [hq0]; simp [hne]
    simp [Aggregator.add, hq, hne]
  · intro hr hne
    have hq : a.queue.isEmpty = false := by rw [hq0]; simpa using hne
    rw [add_nonevent a r hr, hq]
    simp
  · intro hr hne
    have hq : a.queue.isEmpty = true := by rw [hq0]; simp [hne]
    rw [add_nonevent a r hr, hq]
    simp [hne]

/-- Witness for C5: the four `add` cases at concrete aggregator states. -/
theorem C5_witness :
    ((Aggregator.add ⟨[.event dB], 0⟩ (.event dA)).1 =
      (Aggregator.flush ⟨[.event dB], 0⟩).1 ∧
     (Aggregator.add ⟨[.event dB], 0⟩ (.event dA)).2 = ⟨[.event dA], 0⟩) ∧
    Aggregator.add ⟨[], 3⟩ (.event dA) = (.out none, ⟨[.event dA], 3⟩) ∧
    Aggregator.add ⟨[.event dB], 0⟩ (.packet p1) =
      (.out none, ⟨[.event dB, .packet p1], 0⟩) ∧
    Aggregator.add ⟨[], 3⟩ (.packet p1) = (.out none, ⟨[], 4⟩) :=
  ⟨⟨((C5_aggregator_add ⟨[.event dB], 0⟩ dA (.packet p1)).1 (by decide)).1,
    ((C5_aggregator_add ⟨[.event dB], 0⟩ dA (.packet p1)).1 (by decide)).2
      (some (.event dB)) ⟨[], 0⟩ (by decide)⟩,
   (C5_aggregator_add ⟨[], 3⟩ dA (.packet p1)).2.1 rfl,
   (C5_aggregator_add ⟨[.event dB], 0⟩ dA (.packet p1)).2.2.1 rfl (by decide),
   (C5_aggregator_add ⟨[], 3⟩ dA (.packet p1)).2.2.2.1 rfl rfl⟩

/-- The lexicographic order is reflexive. -/
theorem listLe_refl (l : List Char) : listLe l l = true := by
  induction l with
  | nil => rfl
  | cons c cs ih => simp [listLe, ih]

/-- The lexicographic order is total. -/
theorem listLe_total (a b : List Char) : listLe a b = true ∨ listLe b a = true := by
  induction a generalizing b with
  | nil => exact Or.inl rfl
  | cons c cs ih =>
    cases b with
    | nil => exact Or.inr rfl
    | cons d ds =>
      rcases Nat.lt_trichotomy c.toNat d.toNat with h | h | h
      · left; simp [listLe, h]
      · rcases ih ds with h2 | h2
        · left; simp [listLe, h, h2]
        · right; simp [listLe, h, h2]
      · right; simp [listLe, h]

/-- The lexicographic order is transitive. -/
theorem listLe_trans (a : List Char) : ∀ (b c : List Char),
    listLe a b = true → listLe b c = true → listLe a c = true := by
  induction a with
  | nil => exact fun b c h1 h2 => rfl
  | cons x xs ih =>
    intro b c h1 h2
    match b, c with
    | [], _ => exact absurd h1 (by simp [listLe])
    | y :: ys, [] => exact absurd h2 (by simp [listLe])
    | y :: ys, z :: zs =>
      rw [listLe] at h1 h2 ⊢
      rcases Nat.lt_trichotomy x.toNat y.toNat with hxy | hxy | hxy
      · rcases Nat.lt_trichotomy y.toNat z.toNat with hyz | hyz | hyz
        · rw [if_pos (by omega)]
        · rw [if_pos (by omega)]
        · rw [if_neg (by omega), if_pos hyz] at h2
          simp at h2
      · rcases Nat.lt_trichotomy y.toNat z.toNat with hyz | hyz | hyz
        · rw [if_pos (by omega)]
        · have e1 : ¬ x.toNat < y.toNat := by omega
          have e2 : ¬ y.toNat < x.toNat := by omega
          rw [if_neg e1, if_neg e2] at h1
          have e3 : ¬ y.toNat < z.toNat := by omega
          have e4 : ¬ z.toNat < y.toNat := by omega
          rw [if_neg e3, if_neg e4] at h2
          rw [if_neg (by omega : ¬ x.toNat < z.toNat),
            if_neg (by omega : ¬ z.toNat < x.toNat)]
          exact ih ys zs h1 h2
        · rw [if_neg (by omega), if_pos hyz] at h2
          simp at h2
      · rw [if_neg (by omega), if_pos hxy] at h1
        simp at h1

/-- Reflexivity of the string order. -/
theorem strLe_refl (a : String) : strLe a a = true := listLe_refl a.data

/-- Transitivity of the string order. -/
theorem strLe_trans (a b c : String) (h1 : strLe a b = true)
    (h2 : strLe b c = true) : strLe a c = true :=
  listLe_trans a.data b.data c.data h1 h2

/-- Totality of the string order. -/
theorem strLe_of_not (a b : String) (h : ¬ strLe a b = true) :
    strLe b a = true := by
  rcases listLe_total a.data b.data with h2 | h2
  · exact absurd h2 h
  · exact h2

/-- Membership in an insertion. -/
theorem mem_insertSorted (a x : String) (l : List String) :
    x ∈ insertSorted a l ↔ x = a ∨ x ∈ l := by
  induction l with
  | nil => simp [insertSorted]
  | cons y ys ih =>
    simp only [insertSorted]
    split
    · simp only [List.mem_cons]
    · simp only [List.mem_cons, ih]
      tauto

/-- Sorting preserves membership. -/
theorem mem_sortStrings (x : String) (l : List String) :
    x ∈ sortStrings l ↔ x ∈ l := by
  induction l with
  | nil => simp [sortStrings]
  | cons y ys ih =>
    simp only [sortStrings, mem_insertSorted, ih, List.mem_cons]

/-- Insertion preserves sortedness. -/
theorem insertSorted_pairwise (a : String) (l : List String)
    (h : l.Pairwise (fun u v => strLe u v = true)) :
    (insertSorted a l).Pairwise (fun u v => strLe u v = true) := by
  induction l with
  | nil => simp [insertSorted]
  | cons y ys ih =>
    rw [List.pairwise_cons] at h
    simp only [insertSorted]
    split
    case isTrue hay =>
      rw [List.pairwise_cons]
      refine ⟨?_, List.pairwise_cons.mpr h⟩
      intro b hb
      rcases List.mem_cons.mp hb with hb | hb
      · exact hb ▸ hay
      · exact strLe_trans a y b hay (h.1 b hb)
    case isFalse hay =>
      rw [List.pairwise_cons]
      refine ⟨?_, ih h.2⟩
      intro b hb
      rcases (mem_insertSorted a b ys).mp hb with hb | hb
      · exact hb ▸ strLe_of_not a y hay
      · exact h.1 b hb

/-- The sort output is sorted. -/
theorem sortStrings_pairwise (l : List String) :
    (sortStrings l).Pairwise (fun u v => strLe u v = true) := by
  induction l with
  | nil => simp [sortStrings]
  | cons y ys ih => exact insertSorted_pairwise y (sortStrings ys) ih

/-- The head of the sort output is a minimum. -/
theorem sortStrings_headD_le (l : List String) (x : String)
    (hx : x ∈ sortStrings l) : strLe ((sortStrings l).headD "") x = true := by
  have hp := sortStrings_pairwise l
  match hs : sortStrings l with
  | [] => rw [hs] at hx; simp at hx
  | y :: ys =>
    rw [hs] at hx hp
    rcases List.mem_cons.mp hx with h | h
    · subst h; simp [strLe_refl]
    · exact (List.pairwise_cons.mp hp).1 x h
/-- The head of the sorted listing is a matching name and is lexically
least among all matching names. -/
theorem get_filenames_head_min (s : SpoolRecordReader) (fs : FS)
    (h : s.get_filenames fs ≠ []) :
    (s.get_filenames fs).headD "" ∈ matchingNames fs s.pfx ∧
    ∀ x ∈ matchingNames fs s.pfx,
      strLe ((s.get_filenames fs).headD "") x = true := by
  have hmem : (s.get_filenames fs).headD "" ∈ s.get_filenames fs := by
    match hs : s.get_filenames fs with
    | [] => exact absurd hs h
    | y :: ys => simp
  constructor
  · exact (mem_sortStrings _ _).mp hmem
  · intro x hx
    exact sortStrings_headD_le _ x ((mem_sortStrings _ _).mpr hx)

/-- `open_next` with no open file opens the first listed match, with one
rollover call `(None, first)`. -/
theorem open_next_no_file (s : SpoolRecordReader) (fs : FS)
    (h0 : s.fileobj = none) (h : s.get_filenames fs ≠ []) :
    s.open_next fs = (some ((s.get_filenames fs).headD ""),
      ⟨s.pfx, some ⟨(s.get_filenames fs).headD "", 0⟩⟩,
      [(none, (s.get_filenames fs).headD "")]) := by
  have he : (s.get_filenames fs).isEmpty = false := by
    rw [Bool.eq_false_iff]
    simpa [List.isEmpty_iff] using h
  simp only [SpoolRecordReader.open_next, he, Bool.false_eq_true, if_false, h0,
    SpoolRecordReader.open_file]
  rfl

/-- `open_next` when the current file vanished from the listing opens the
first listed match, with one rollover call. -/
theorem open_next_vanished (s : SpoolRecordReader) (fs : FS) (of : OpenFile)
    (h0 : s.fileobj = some of) (hm : of.name ∉ s.get_filenames fs)
    (h : s.get_filenames fs ≠ []) :
    s.open_next fs = (some ((s.get_filenames fs).headD ""),
      ⟨s.pfx, some ⟨(s.get_filenames fs).headD "", 0⟩⟩,
      [(some of.name, (s.get_filenames fs).headD "")]) := by
  have he : (s.get_filenames fs).isEmpty = false := by
    rw [Bool.eq_false_iff]
    simpa [List.isEmpty_iff] using h
  simp only [SpoolRecordReader.open_next, he, Bool.false_eq_true, if_false, h0,
    SpoolRecordReader.open_file, if_neg hm]
  simp [h0]

/-- `open_next` when the current file is listed and not last opens the
immediately following entry, with one rollover call. -/
theorem open_next_advance (s : SpoolRecordReader) (fs : FS) (of : OpenFile)
    (h0 : s.fileobj = some of) (hm : of.name ∈ s.get_filenames fs)
    (hi : (s.get_filenames fs).indexOf of.name + 1 <
      (s.get_filenames fs).length) :
    s.open_next fs = (some ((s.get_filenames fs).getD
        ((s.get_filenames fs).indexOf of.name + 1) ""),
      ⟨s.pfx, some ⟨(s.get_filenames fs).getD
        ((s.get_filenames fs).indexOf of.name + 1) "", 0⟩⟩,
      [(some of.name, (s.get_filenames fs).getD
        ((s.get_filenames fs).indexOf of.name + 1) "")]) := by
  have he : (s.get_filenames fs).isEmpty = false := by
    rw [Bool.eq_false_iff]
    intro hT
    rw [List.isEmpty_iff] at hT
    rw [hT] at hm
    simp at hm
  simp only [SpoolRecordReader.open_next, he, Bool.false_eq_true, if_false, h0,
    SpoolRecordReader.open_file, if_pos hm, if_pos hi]
  simp [h0]

/-- `open_next` when the current file is the last listed entry does
nothing: no new file, unchanged state, no rollover call. -/
theorem open_next_last (s : SpoolRecordReader) (fs : FS) (of : OpenFile)
    (h0 : s.fileobj = some of) (hm : of.name ∈ s.get_filenames fs)
    (hi : (s.get_filenames fs).indexOf of.name + 1 =
      (s.get_filenames fs).length) :
    s.open_next fs = (none, s, []) := by
  have he : (s.get_filenames fs).isEmpty = false := by
    rw [Bool.eq_false_iff]
    intro hT
    rw [List.isEmpty_iff] at hT
    rw [hT] at hm
    simp at hm
  have hi2 : ¬ ((s.get_filenames fs).indexOf of.name + 1 <
      (s.get_filenames fs).length) := by omega
  simp only [SpoolRecordReader.open_next, he, Bool.false_eq_true, if_false, h0,
    SpoolRecordReader.open_file, if_pos hm, if_neg hi2]

/-- C4: `open_next` opens the lexically-first prefix match when no file is
open or when the current filename is absent from the listing; otherwise it
opens the entry immediately following the current filename in the sorted
listing, or does nothing if the current file is last; every actual
transition performs exactly one rollover call `(closing filename | None,
opening filename)`; and the head of the sorted listing is the lexical
minimum of the prefix matches. -/
theorem C4_open_next (s : SpoolRecordReader) (fs : FS) :
    (s.get_filenames fs ≠ [] →
      (s.get_filenames fs).headD "" ∈ matchingNames fs s.pfx ∧
      ∀ x ∈ matchingNames fs s.pfx,
        strLe ((s.get_filenames fs).headD "") x = true) ∧
    (s.fileobj = none → s.get_filenames fs ≠ [] →
      s.open_next fs = (some ((s.get_filenames fs).headD ""),
        ⟨s.pfx, some ⟨(s.get_filenames fs).headD "", 0⟩⟩,
        [(none, (s.get_filenames fs).headD "")])) ∧
    (∀ of, s.fileobj = some of → of.name ∉ s.get_filenames fs →
      s.get_filenames fs ≠ [] →
      s.open_next fs = (some ((s.get_filenames fs).headD ""),
        ⟨s.pfx, some ⟨(s.get_filenames fs).headD "", 0⟩⟩,
        [(some of.name, (s.get_filenames fs).headD "")])) ∧
    (∀ of, s.fileobj = some of → of.name ∈ s.get_filenames fs →
      (s.get_filenames fs).indexOf of.name + 1 < (s.get_filenames fs).length →
      s.open_next fs = (some ((s.get_filenames fs).getD
          ((s.get_filenames fs).indexOf of.name + 1) ""),
        ⟨s.pfx, some ⟨(s.get_filenames fs).getD
          ((s.get_filenames fs).indexOf of.name + 1) "", 0⟩⟩,
        [(some of.name, (s.get_filenames fs).getD
          ((s.get_filenames fs).indexOf of.name + 1) "")])) ∧
    (∀ of, s.fileobj = some of → of.name ∈ s.get_filenames fs →
      (s.get_filenames fs).indexOf of.name + 1 = (s.get_filenames fs).length →
      s.open_next fs = (none, s, [])) :=
  ⟨get_filenames_head_min s fs,
   open_next_no_file s fs,
   fun of => open_next_vanished s fs of,
   fun of => open_next_advance s fs of,
   fun of => open_next_last s fs of⟩

/-- A concrete three-file spool directory used by witnesses. -/
def spoolFS : FS := [("u.2", [1]), ("u.1", [2]), ("x.1", [3])]

/-- Witness for C4: all four `open_next` cases on the concrete spool. -/
theorem C4_witness :
    ("u.1" ∈ matchingNames spoolFS "u" ∧ strLe "u.1" "u.2" = true) ∧
    SpoolRecordReader.open_next ⟨"u", none⟩ spoolFS =
      (some "u.1", ⟨"u", some ⟨"u.1", 0⟩⟩, [(none, "u.1")]) ∧
    SpoolRecordReader.open_next ⟨"u", some ⟨"u.0", 5⟩⟩ spoolFS =
      (some "u.1", ⟨"u", some ⟨"u.1", 0⟩⟩, [(some "u.0", "u.1")]) ∧
    SpoolRecordReader.open_next ⟨"u", some ⟨"u.1", 5⟩⟩ spoolFS =
      (some "u.2", ⟨"u", some ⟨"u.2", 0⟩⟩, [(some "u.1", "u.2")]) ∧
    SpoolRecordReader.open_next ⟨"u", some ⟨"u.2", 5⟩⟩ spoolFS =
      (none, ⟨"u", some ⟨"u.2", 5⟩⟩, []) :=
  ⟨⟨((C4_open_next ⟨"u", none⟩ spoolFS).1 (by decide)).1,
    ((C4_open_next ⟨"u", none⟩ spoolFS).1 (by decide)).2 "u.2" (by decide)⟩,
   (C4_open_next ⟨"u", none⟩ spoolFS).2.1 rfl (by decide),
   (C4_open_next ⟨"u", some ⟨"u.0", 5⟩⟩ spoolFS).2.2.1 ⟨"u.0", 5⟩ rfl (by decide) (by decide),
   (C4_open_next ⟨"u", some ⟨"u.1", 5⟩⟩ spoolFS).2.2.2.1 ⟨"u.1", 5⟩ rfl (by decide) (by decide),
   (C4_open_next ⟨"u", some ⟨"u.2", 5⟩⟩ spoolFS).2.2.2.2 ⟨"u.2", 5⟩ rfl (by decide) (by decide)⟩


/-- A truncated read on an open handle leaves it at the recorded
position. -/
theorem readAt_err_state (fs : FS) (of of1 : OpenFile)
    (h : readAt fs of = (.err, of1)) : of1 = of := by
  unfold readAt at h
  dsimp only at h
  rcases hr : read_record ⟨fsRead fs of.name, of.pos⟩ with ⟨res, f1⟩
  rw [hr] at h
  injection h with h1 h2
  subst h1
  have := read_record_err_state _ _ hr
  rw [← h2, this]

/-- A clean end-of-stream read leaves the handle unchanged. -/
theorem readAt_eof_state (fs : FS) (of of1 : OpenFile)
    (h : readAt fs of = (.eof, of1)) : of1 = of := by
  unfold readAt at h
  dsimp only at h
  rcases hr : read_record ⟨fsRead fs of.name, of.pos⟩ with ⟨res, f1⟩
  rw [hr] at h
  injection h with h1 h2
  subst h1
  have := read_record_eof_state _ _ hr
  rw [← h2, this]

/-- C2: `_next` never propagates the truncated condition: an `EOFError`
from the current reader makes the call return `None` with the state (and
rewound position) unchanged, so a later call retries identically; on clean
end-of-stream it runs `open_next` — if no further file is available the
call returns `None`, and if a new file is opened the call returns its first
record, or `None` again if that read raises the truncated condition. -/
theorem C2_spool_downgrade (s : SpoolRecordReader) (fs : FS) (of : OpenFile)
    (h : s.fileobj = some of) :
    (∀ of1, readAt fs of = (.err, of1) →
      of1 = of ∧ s.next1 fs = (.out none, s, [])) ∧
    (∀ of1 s1 hs, readAt fs of = (.eof, of1) →
      (s.setFile of1).open_next fs = (none, s1, hs) →
      s.next1 fs = (.out none, s1, hs)) ∧
    (∀ of1 f s1 hs of2 r of3, readAt fs of = (.eof, of1) →
      (s.setFile of1).open_next fs = (some f, s1, hs) →
      s1.fileobj = some of2 → readAt fs of2 = (.ok r, of3) →
      s.next1 fs = (.out (some r), s1.setFile of3, hs)) ∧
    (∀ of1 f s1 hs of2 of3, readAt fs of = (.eof, of1) →
      (s.setFile of1).open_next fs = (some f, s1, hs) →
      s1.fileobj = some of2 → readAt fs of2 = (.err, of3) →
      s.next1 fs = (.out none, s1.setFile of3, hs)) := by
  have hs_eta : s = ⟨s.pfx, some of⟩ := by
    rcases s with ⟨p, fo⟩
    simp only at h
    rw [h]
  refine ⟨?_, ?_, ?_, ?_⟩
  · intro of1 hr
    have ho : of1 = of := readAt_err_state fs of of1 hr
    subst ho
    constructor
    · rfl
    · rw [SpoolRecordReader.next1]
      rw [hs_eta]
      simp only [spoolMain, hr]
      rw [← hs_eta]
      simp only [SpoolRecordReader.setFile]
      rw [← hs_eta]
  · intro of1 s1 hs hr hop
    rw [SpoolRecordReader.next1, hs_eta]
    simp only [spoolMain, hr]
    have : fs.length + 2 = (fs.length + 1) + 1 := rfl
    rw [this, spoolLoop]
    rw [← hs_eta] at *
    simp only [hop]
  · intro of1 f s1 hs of2 r of3 hr hop hs1 hr2
    rw [SpoolRecordReader.next1, hs_eta]
    simp only [spoolMain, hr]
    have : fs.length + 2 = (fs.length + 1) + 1 := rfl
    rw [this, spoolLoop]
    rw [← hs_eta] at *
    simp only [hop, hs1, hr2]
  · intro of1 f s1 hs of2 of3 hr hop hs1 hr2
    rw [SpoolRecordReader.next1, hs_eta]
    simp only [spoolMain, hr]
    have : fs.length + 2 = (fs.length + 1) + 1 := rfl
    rw [this, spoolLoop]
    rw [← hs_eta] at *
    simp only [hop, hs1, hr2]


/-- A spool with a finished one-byte file, a file holding one unknown-type
record, and a truncated file. -/
def spoolFS2 : FS :=
  [("u.1", [1]), ("u.2", [0, 0, 0, 99, 0, 0, 0, 2, 5, 5]), ("u.3", [0, 0, 0])]

/-- Witness for C2: the four `_next` paths on the concrete spool. -/
theorem C2_witness :
    ((⟨"u.3", 0⟩ : OpenFile) = ⟨"u.3", 0⟩ ∧
     SpoolRecordReader.next1 ⟨"u", some ⟨"u.3", 0⟩⟩ spoolFS2 =
       (.out none, ⟨"u", some ⟨"u.3", 0⟩⟩, [])) ∧
    SpoolRecordReader.next1 ⟨"u", some ⟨"u.3", 3⟩⟩ spoolFS2 =
      (.out none, ⟨"u", some ⟨"u.3", 3⟩⟩, []) ∧
    SpoolRecordReader.next1 ⟨"u", some ⟨"u.1", 1⟩⟩ spoolFS2 =
      (.out (some (.unknown 99 [5, 5])), ⟨"u", some ⟨"u.2", 10⟩⟩,
       [(some "u.1", "u.2")]) ∧
    SpoolRecordReader.next1 ⟨"u", some ⟨"u.2", 10⟩⟩ spoolFS2 =
      (.out none, ⟨"u", some ⟨"u.3", 0⟩⟩, [(some "u.2", "u.3")]) :=
  ⟨(C2_spool_downgrade ⟨"u", some ⟨"u.3", 0⟩⟩ spoolFS2 ⟨"u.3", 0⟩ rfl).1 ⟨"u.3", 0⟩ (by decide),
   (C2_spool_downgrade ⟨"u", some ⟨"u.3", 3⟩⟩ spoolFS2 ⟨"u.3", 3⟩ rfl).2.1 ⟨"u.3", 3⟩
     ⟨"u", some ⟨"u.3", 3⟩⟩ [] (by decide) (by decide),
   (C2_spool_downgrade ⟨"u", some ⟨"u.1", 1⟩⟩ spoolFS2 ⟨"u.1", 1⟩ rfl).2.2.1 ⟨"u.1", 1⟩
     "u.2" ⟨"u", some ⟨"u.2", 0⟩⟩ [(some "u.1", "u.2")] ⟨"u.2", 0⟩
     (.unknown 99 [5, 5]) ⟨"u.2", 10⟩ (by decide) (by decide) rfl (by decide),
   (C2_spool_downgrade ⟨"u", some ⟨"u.2", 10⟩⟩ spoolFS2 ⟨"u.2", 10⟩ rfl).2.2.2 ⟨"u.2", 10⟩
     "u.3" ⟨"u", some ⟨"u.3", 0⟩⟩ [(some "u.2", "u.3")] ⟨"u.3", 0⟩ ⟨"u.3", 0⟩
     (by decide) (by decide) rfl (by decide)⟩

/-- C3: `tell` yields `(filename, offset)` for an open file and
`(None, None)` otherwise, and a fresh reader constructed with that
`(filename, offset)` as `init_filename`/`init_offset` produces the
identical remaining record sequence over the same directory contents. -/
theorem C3_tell_resume (s : SpoolRecordReader) (fs : FS) :
    (s.fileobj = none → s.tell = (none, none)) ∧
    (∀ of, s.fileobj = some of →
      s.tell = (some of.name, some of.pos) ∧
      (of.name ≠ "" → fsHas fs of.name = true →
        ∀ n, spoolStream n (spoolInit s.pfx (some of.name) of.pos fs).1 fs =
          spoolStream n s fs)) := by
  constructor
  · intro h
    simp [SpoolRecordReader.tell, h]
  · intro of h
    constructor
    · simp [SpoolRecordReader.tell, h]
    · intro hne hhas n
      have hst : (spoolInit s.pfx (some of.name) of.pos fs).1 = s := by
        simp only [spoolInit, SpoolRecordReader.open_file, if_neg hne, hhas,
          if_pos]
        rcases s with ⟨p, fo⟩
        simp only at h
        rw [h]
      rw [hst]
/-- Witness for C3: `tell` on both states and a 2-step resumed stream. -/
theorem C3_witness :
    SpoolRecordReader.tell ⟨"u", none⟩ = (none, none) ∧
    SpoolRecordReader.tell ⟨"u", some ⟨"u.2", 3⟩⟩ = (some "u.2", some 3) ∧
    spoolStream 2 (spoolInit "u" (some "u.2") 3 spoolFS2).1 spoolFS2 =
      spoolStream 2 ⟨"u", some ⟨"u.2", 3⟩⟩ spoolFS2 :=
  ⟨(C3_tell_resume ⟨"u", none⟩ spoolFS2).1 rfl,
   ((C3_tell_resume ⟨"u", some ⟨"u.2", 3⟩⟩ spoolFS2).2 ⟨"u.2", 3⟩ rfl).1,
   ((C3_tell_resume ⟨"u", some ⟨"u.2", 3⟩⟩ spoolFS2).2 ⟨"u.2", 3⟩ rfl).2
     (by decide) (by decide) 2⟩


/-- Field values for a hand-built IPv4 event, sensor id varying. -/
def evVals (sid : Nat) : List Value :=
  [.num sid, .num 11, .num 12, .num 13, .num 14, .num 15, .num 16, .num 17,
   .num 18, .bytes [1, 2, 3, 4], .bytes [5, 6, 7, 8], .num 19, .num 20,
   .num 6, .num 1, .num 2, .num 3]

/-- A complete hand-built EVENT record: 8-byte header (type 7, length 52)
plus the encoded payload. -/
def evBuf (sid : Nat) : List Nat :=
  beBytes 4 EVENT ++ beBytes 4 52 ++ encodeVals (fmtsOf EVENT_FIELDS) (evVals sid)

/-- The event dict `evBuf sid` decodes to. -/
def evDict (sid : Nat) : EDict :=
  [("extra-data", .extras []), ("packets", .packets []),
   ("mpls-label", .vnone), ("vlan-id", .vnone),
   ("sensor-id", .num sid), ("event-id", .num 11), ("event-second", .num 12),
   ("event-microsecond", .num 13), ("signature-id", .num 14),
   ("generator-id", .num 15), ("signature-revision", .num 16),
   ("classification-id", .num 17), ("priority", .num 18),
   ("ip-source", .bytes [1, 2, 3, 4]), ("ip-destination", .bytes [5, 6, 7, 8]),
   ("sport-itype", .num 19), ("dport-icode", .num 20), ("protocol", .num 6),
   ("impact-flag", .num 1), ("impact", .num 2), ("blocked", .num 3)]

/-- Two files, each holding one event record. -/
def fs2ev : FS := [("f1", evBuf 1), ("f2", evBuf 2)]

/-- Once `FileRecordReader.next` reports clean end-of-stream, every later
call reports it again with the state unchanged. -/
theorem frNext_eof_perm : ∀ (fuel : Nat) (s : FileRecordReader) (fs : FS)
    (s1 : FileRecordReader), s.files.length < fuel →
    FileRecordReader.next fuel s fs = (.eof, s1) →
    ∀ m, FileRecordReader.next (m + 1) s1 fs = (.eof, s1) := by
  intro fuel
  induction fuel with
  | zero => exact fun s fs s1 h => absurd h (Nat.not_lt_zero _)
  | succ n ih =>
    intro s fs s1 hlen hnext m
    rw [FileRecordReader.next] at hnext
    rcases hr : readAt fs s.cur with ⟨res, c1⟩
    rw [hr] at hnext
    cases res with
    | ok r => simp at hnext
    | err => simp at hnext
    | fail => simp at hnext
    | eof =>
      have hc := readAt_eof_state fs s.cur c1 hr
      subst hc
      cases hf : s.files with
      | nil =>
        rw [hf] at hnext
        injection hnext with h1 h2
        subst h2
        rw [FileRecordReader.next]
        simp only [hr, hf]
      | cons f rest =>
        rw [hf] at hnext
        have hl2 : rest.length < n := by
          rw [hf] at hlen
          simpa using hlen
        exact ih ⟨rest, ⟨f, 0⟩⟩ fs s1 hl2 hnext m


/-- C6: `FileRecordReader.next` returns the current file record when one
is read; a truncated condition (`EOFError`) propagates to the caller even
with files remaining; clean end-of-stream advances to the next file and
continues the stream; once all files are exhausted the end-of-stream signal
is permanent; and a `FileEventReader` over two one-event files returns the
two events in file order and then `None` thereafter. -/
theorem C6_file_readers :
    (∀ (fuel : Nat) (s : FileRecordReader) (fs : FS) (r : Record)
      (c1 : OpenFile), readAt fs s.cur = (.ok r, c1) →
      FileRecordReader.next (fuel + 1) s fs = (.ok r, ⟨s.files, c1⟩)) ∧
    (∀ (fuel : Nat) (s : FileRecordReader) (fs : FS) (c1 : OpenFile),
      readAt fs s.cur = (.err, c1) →
      FileRecordReader.next (fuel + 1) s fs = (.err, ⟨s.files, c1⟩)) ∧
    (∀ (fuel : Nat) (s : FileRecordReader) (fs : FS) (c1 : OpenFile)
      (f : String) (rest : List String),
      readAt fs s.cur = (.eof, c1) → s.files = f :: rest →
      FileRecordReader.next (fuel + 1) s fs =
        FileRecordReader.next fuel ⟨rest, ⟨f, 0⟩⟩ fs) ∧
    (∀ (fuel : Nat) (s : FileRecordReader) (fs : FS) (s1 : FileRecordReader),
      s.files.length < fuel →
      FileRecordReader.next fuel s fs = (.eof, s1) →
      ∀ m, FileRecordReader.next (m + 1) s1 fs = (.eof, s1)) ∧
    feStream 4 4 (FileEventReader.init "f1" ["f2"]) fs2ev =
      [.out (some (.event (evDict 1))), .out (some (.event (evDict 2))),
       .out none, .out none] := by
  refine ⟨?_, ?_, ?_, frNext_eof_perm, by decide⟩
  · intro fuel s fs r c1 hr
    rw [FileRecordReader.next, hr]
  · intro fuel s fs c1 hr
    rw [FileRecordReader.next, hr]
  · intro fuel s fs c1 f rest hr hf
    rw [FileRecordReader.next, hr, hf]

/-- Witness for C6: the four reader paths at concrete files. -/
theorem C6_witness :
    FileRecordReader.next 1 ⟨["f2"], ⟨"f1", 0⟩⟩ fs2ev =
      (.ok (.event (evDict 1)), ⟨["f2"], ⟨"f1", 60⟩⟩) ∧
    FileRecordReader.next 1 ⟨["u.1"], ⟨"u.3", 0⟩⟩ spoolFS2 =
      (.err, ⟨["u.1"], ⟨"u.3", 0⟩⟩) ∧
    FileRecordReader.next 1 ⟨["u.1"], ⟨"u.3", 3⟩⟩ spoolFS2 =
      FileRecordReader.next 0 ⟨[], ⟨"u.1", 0⟩⟩ spoolFS2 ∧
    FileRecordReader.next 1 ⟨[], ⟨"u.3", 3⟩⟩ spoolFS2 =
      (.eof, ⟨[], ⟨"u.3", 3⟩⟩) :=
  ⟨C6_file_readers.1 0 ⟨["f2"], ⟨"f1", 0⟩⟩ fs2ev (.event (evDict 1)) ⟨"f1", 60⟩
     (by decide),
   C6_file_readers.2.1 0 ⟨["u.1"], ⟨"u.3", 0⟩⟩ spoolFS2 ⟨"u.3", 0⟩ (by decide),
   C6_file_readers.2.2.1 0 ⟨["u.1"], ⟨"u.3", 3⟩⟩ spoolFS2 ⟨"u.3", 3⟩ "u.1" []
     (by decide) rfl,
   C6_file_readers.2.2.2.1 1 ⟨[], ⟨"u.3", 3⟩⟩ spoolFS2 ⟨[], ⟨"u.3", 3⟩⟩ (by decide)
     (by decide) 0⟩



/-- Appending a byte to a big-endian buffer. -/
theorem beToNat_append (l : List Nat) (b : Nat) :
    beToNat (l ++ [b]) = beToNat l * 256 + b := by
  simp [beToNat, List.foldl_append]

/-- An encoded value occupies exactly its declared width. -/
theorem beBytes_length (k n : Nat) : (beBytes k n).length = k := by
  induction k generalizing n with
  | zero => rfl
  | succ m ih => simp [beBytes, ih]

/-- Big-endian decode of a big-endian encode is the identity for in-range
values. -/
theorem beToNat_beBytes (k n : Nat) (h : n < 256 ^ k) :
    beToNat (beBytes k n) = n := by
  induction k generalizing n with
  | zero =>
    interval_cases n
    rfl
  | succ m ih =>
    rw [beBytes, beToNat_append]
    have hdiv : n / 256 < 256 ^ m := by
      rw [Nat.div_lt_iff_lt_mul (by norm_num : (0:Nat) < 256)]
      calc n < 256 ^ (m + 1) := h
        _ = 256 ^ m * 256 := by rw [pow_succ]
    rw [ih (n / 256) hdiv]
    omega

/-- One encoded field occupies exactly its format size. -/
theorem encodeOne_length (f : Fmt) (v : Value) (h : valOk f v = true) :
    (encodeOne f v).length = fmtSize f := by
  cases f <;> cases v <;> simp_all [valOk, encodeOne, beBytes_length, fmtSize]

/-- A fitting value list has one value per format item. -/
theorem valsOk_length (fL : List Fmt) (vs : List Value)
    (h : valsOk fL vs = true) : vs.length = fL.length := by
  induction fL generalizing vs with
  | nil => cases vs with
    | nil => rfl
    | cons v vs => simp [valsOk] at h
  | cons f fs ih =>
    cases vs with
    | nil => simp [valsOk] at h
    | cons v vs =>
      rw [valsOk, Bool.and_eq_true] at h
      simp [ih vs h.2]

/-- Each value of a fitting list fits its format item. -/
theorem valsOk_getD (fL : List Fmt) (vs : List Value)
    (h : valsOk fL vs = true) (i : Nat) (hi : i < fL.length) :
    valOk (fL.getD i .B) (vs.getD i (.num 0)) = true := by
  induction fL generalizing vs i with
  | nil => simp at hi
  | cons f fs ih =>
    cases vs with
    | nil => simp [valsOk] at h
    | cons v vs =>
      rw [valsOk, Bool.and_eq_true] at h
      cases i with
      | zero => simpa using h.1
      | succ j =>
        simp only [List.getD_cons_succ]
        exact ih vs h.2 j (by simpa using hi)

/-- The encoded buffer length is the summed format size. -/
theorem encodeVals_length (fL : List Fmt) (vs : List Value)
    (h : valsOk fL vs = true) :
    (encodeVals fL vs).length = (fL.map fmtSize).sum := by
  induction fL generalizing vs with
  | nil =>
    cases vs with
    | nil => rfl
    | cons v vs => simp [valsOk] at h
  | cons f fs ih =>
    cases vs with
    | nil => simp [valsOk] at h
    | cons v vs =>
      rw [valsOk, Bool.and_eq_true] at h
      simp [encodeVals, encodeOne_length f v h.1, ih vs h.2]

/-- `struct.unpack` consumes one encoded field and recovers its value. -/
theorem unpackFields_cons_step (f : Fmt) (v : Value) (hok : valOk f v = true)
    (fs : List Fmt) (rest : List Nat) :
    unpackFields (f :: fs) (encodeOne f v ++ rest) =
      (unpackFields fs rest).map (fun ws => v :: ws) := by
  cases f with
  | S n =>
    cases v with
    | num m => simp [valOk] at hok
    | bytes bs =>
      have hbs : bs.length = n := by simpa [valOk] using hok
      show unpackFields (Fmt.S n :: fs) (bs ++ rest) = _
      rw [unpackFields]
      have hl : ¬ ((bs ++ rest).length < fmtSize (Fmt.S n)) := by
        simp [List.length_append, fmtSize, hbs]
      rw [if_neg hl]
      dsimp only
      rw [List.take_left' hbs, List.drop_left' (show bs.length = fmtSize (Fmt.S n) from hbs)]
  | L =>
    cases v with
    | bytes bs => simp [valOk] at hok
    | num m =>
      have hm : m < 256 ^ 4 := by simpa [valOk] using hok
      show unpackFields (Fmt.L :: fs) (beBytes 4 m ++ rest) = _
      rw [unpackFields]
      have hl : ¬ ((beBytes 4 m ++ rest).length < fmtSize Fmt.L) := by
        simp [List.length_append, beBytes_length, fmtSize]
      rw [if_neg hl]
      dsimp only
      rw [List.take_left' (show (beBytes 4 m).length = fmtSize Fmt.L from
          beBytes_length 4 m),
        List.drop_left' (show (beBytes 4 m).length = fmtSize Fmt.L from
          beBytes_length 4 m),
        beToNat_beBytes 4 m hm]
      exact fun k hk => Fmt.noConfusion hk
  | H =>
    cases v with
    | bytes bs => simp [valOk] at hok
    | num m =>
      have hm : m < 256 ^ 2 := by simpa [valOk] using hok
      show unpackFields (Fmt.H :: fs) (beBytes 2 m ++ rest) = _
      rw [unpackFields]
      have hl : ¬ ((beBytes 2 m ++ rest).length < fmtSize Fmt.H) := by
        simp [List.length_append, beBytes_length, fmtSize]
      rw [if_neg hl]
      dsimp only
      rw [List.take_left' (show (beBytes 2 m).length = fmtSize Fmt.H from
          beBytes_length 2 m),
        List.drop_left' (show (beBytes 2 m).length = fmtSize Fmt.H from
          beBytes_length 2 m),
        beToNat_beBytes 2 m hm]
      exact fun k hk => Fmt.noConfusion hk
  | B =>
    cases v with
    | bytes bs => simp [valOk] at hok
    | num m =>
      have hm : m < 256 ^ 1 := by simpa [valOk] using hok
      show unpackFields (Fmt.B :: fs) (beBytes 1 m ++ rest) = _
      rw [unpackFields]
      have hl : ¬ ((beBytes 1 m ++ rest).length < fmtSize Fmt.B) := by
        simp [List.length_append, beBytes_length, fmtSize]
      rw [if_neg hl]
      dsimp only
      rw [List.take_left' (show (beBytes 1 m).length = fmtSize Fmt.B from
          beBytes_length 1 m),
        List.drop_left' (show (beBytes 1 m).length = fmtSize Fmt.B from
          beBytes_length 1 m),
        beToNat_beBytes 1 m hm]
      exact fun k hk => Fmt.noConfusion hk

/-- `struct.unpack` on the encoding of a fitting value list recovers
exactly that list. -/
theorem unpack_encode (fL : List Fmt) (vs : List Value)
    (h : valsOk fL vs = true) :
    unpackFields fL (encodeVals fL vs) = some vs := by
  induction fL generalizing vs with
  | nil =>
    cases vs with
    | nil => rfl
    | cons v vs => simp [valsOk] at h
  | cons f fs ih =>
    cases vs with
    | nil => simp [valsOk] at h
    | cons v vs =>
      rw [valsOk, Bool.and_eq_true] at h
      rw [encodeVals, unpackFields_cons_step f v h.1, ih vs h.2]
      rfl


/-- Assignment then lookup of the same key. -/
theorem dget_dset_self {α : Type} (d : List (String × α)) (k : String) (v : α) :
    dget (dset d k v) k = some v := by
  induction d with
  | nil => simp [dset, dget]
  | cons kv rest ih =>
    rcases kv with ⟨k0, v0⟩
    rw [dset]
    by_cases h : k0 = k
    · rw [if_pos h, dget, if_pos rfl]
    · rw [if_neg h, dget, if_neg h]
      exact ih

/-- Assignment does not disturb other keys. -/
theorem dget_dset_ne {α : Type} (d : List (String × α)) (k k' : String) (v : α)
    (h : k ≠ k') : dget (dset d k v) k' = dget d k' := by
  induction d with
  | nil => simp [dset, dget, h]
  | cons kv rest ih =>
    rcases kv with ⟨k0, v0⟩
    rw [dset]
    by_cases h0 : k0 = k
    · rw [if_pos h0, dget, if_neg h, dget, h0, if_neg h]
    · rw [if_neg h0, dget, dget]
      by_cases h1 : k0 = k'
      · rw [if_pos h1, if_pos h1]
      · rw [if_neg h1, if_neg h1]
        exact ih

/-- A fold of assignments leaves unassigned keys alone. -/
theorem dget_foldl_not_mem {α : Type} (kvs : List (String × α)) (k : String)
    (h : k ∉ kvs.map Prod.fst) : ∀ d0,
    dget (kvs.foldl (fun d kv => dset d kv.1 kv.2) d0) k = dget d0 k := by
  induction kvs with
  | nil => exact fun d0 => rfl
  | cons kv rest ih =>
    intro d0
    rw [List.map_cons, List.mem_cons] at h
    push_neg at h
    rw [List.foldl_cons, ih h.2, dget_dset_ne d0 kv.1 k kv.2 (fun hc => h.1 hc.symm)]

/-- After folding assignments with distinct keys, each key maps to its
assigned value. -/
theorem dget_foldl_set {α : Type} (kvs : List (String × α)) (dv : α)
    (h : (kvs.map Prod.fst).Nodup) : ∀ (d0 : List (String × α)) (i : Nat),
    i < kvs.length →
    dget (kvs.foldl (fun d kv => dset d kv.1 kv.2) d0) ((kvs.getD i ("", dv)).1) =
      some ((kvs.getD i ("", dv)).2) := by
  induction kvs with
  | nil => intro d0 i hi; simp at hi
  | cons kv rest ih =>
    intro d0 i hi
    rw [List.map_cons, List.nodup_cons] at h
    cases i with
    | zero =>
      simp only [List.getD_cons_zero, List.foldl_cons]
      rw [dget_foldl_not_mem rest kv.1 h.1 (dset d0 kv.1 kv.2)]
      exact dget_dset_self d0 kv.1 kv.2
    | succ j =>
      simp only [List.getD_cons_succ, List.foldl_cons]
      exact ih h.2 (dset d0 kv.1 kv.2) j (by simpa using hi)

/-- Indexing a zip. -/
theorem zip_getD {α β : Type} (as : List α) (bs : List β) (da : α) (db : β) :
    ∀ i, i < as.length → i < bs.length →
    (as.zip bs).getD i (da, db) = (as.getD i da, bs.getD i db) := by
  induction as generalizing bs with
  | nil => intro i h1; simp at h1
  | cons a as ih =>
    intro i h1 h2
    cases bs with
    | nil => simp at h2
    | cons b bs =>
      cases i with
      | zero => rfl
      | succ j =>
        simp only [List.zip_cons_cons, List.getD_cons_succ]
        exact ih bs j (by simpa using h1) (by simpa using h2)

/-- Indexing a map. -/
theorem getD_map {α β : Type} (l : List α) (f : α → β) (d : α) :
    ∀ i, i < l.length → (l.map f).getD i (f d) = f (l.getD i d) := by
  induction l with
  | nil => intro i h; simp at h
  | cons a as ih =>
    intro i h
    cases i with
    | zero => rfl
    | succ j =>
      simp only [List.map_cons, List.getD_cons_succ]
      exact ih j (by simpa using h)

/-- First components of a zip of equal-length lists. -/
theorem map_fst_zip_eq {α β : Type} (as : List α) (bs : List β)
    (h : as.length = bs.length) : (as.zip bs).map Prod.fst = as := by
  induction as generalizing bs with
  | nil => rfl
  | cons a as ih =>
    cases bs with
    | nil => simp at h
    | cons b bs =>
      simp only [List.zip_cons_cons, List.map_cons]
      rw [ih bs (by simpa using h)]

/-- First components of a zip in general. -/
theorem map_fst_zip_truncated {α β : Type} (as : List α) (bs : List β) :
    (as.zip bs).map Prod.fst = as.take bs.length := by
  induction as generalizing bs with
  | nil => simp
  | cons a as ih =>
    cases bs with
    | nil => simp
    | cons b bs =>
      simp only [List.zip_cons_cons, List.map_cons, List.length_cons,
        List.take_succ_cons]
      rw [ih bs]


/-- Default field used with `List.getD`. -/
def defField : Field := ⟨"", none, none⟩

/-- Indexing a map, with a convertible default. -/
theorem getD_map2 {α β : Type} (l : List α) (f : α → β) (d : α) (db : β)
    (hdb : db = f d) (i : Nat) (hi : i < l.length) :
    (l.map f).getD i db = f (l.getD i d) := by
  subst hdb
  exact getD_map l f d i hi

/-- The decoded event maps each field name (all distinct) to the value
unpacked at the same position. -/
theorem eventOfParts_dget (fields : List Field) (parts : List Value)
    (hlen : parts.length = fields.length)
    (hnd : (fields.map Field.name).Nodup) (i : Nat) (hi : i < fields.length) :
    dget (eventOfParts fields parts) ((fields.getD i defField).name) =
      some (toEVal (parts.getD i (.num 0))) := by
  have hmap : (((fields.map Field.name).zip (parts.map toEVal)).map Prod.fst) =
      fields.map Field.name :=
    map_fst_zip_eq _ _ (by simp [hlen])
  have hklen : ((fields.map Field.name).zip (parts.map toEVal)).length =
      fields.length := by
    simp [hlen]
  have hg := dget_foldl_set ((fields.map Field.name).zip (parts.map toEVal))
    (toEVal (.num 0)) (by rw [hmap]; exact hnd) eventInit i (by omega)
  rw [zip_getD _ _ _ _ i (by simpa using hi) (by simp [hlen, hi])] at hg
  simp only at hg
  rw [getD_map2 fields Field.name defField "" rfl i hi] at hg
  rw [getD_map2 parts toEVal (.num 0) (toEVal (.num 0)) rfl i (by omega)] at hg
  exact hg

/-- A key that is not a field name keeps its initial-dict value. -/
theorem eventOfParts_dget_not_mem (fields : List Field) (parts : List Value)
    (hlen : parts.length = fields.length) (k : String)
    (hk : k ∉ fields.map Field.name) :
    dget (eventOfParts fields parts) k = dget eventInit k := by
  unfold eventOfParts
  rw [dget_foldl_not_mem _ k]
  rw [map_fst_zip_eq _ _ (by simp [hlen])]
  exact hk

/-- Round-trip property of one event record type: decoding the encoding of
any fitting value list yields an event whose fields equal the encoded
values in declared order, whose address fields are byte strings of width
`w`, and whose MPLS label and VLAN id are explicitly unset for the v1
variants. -/
def eventRT (tcode : Nat) (fields : List Field) (w : Nat) (v2 : Bool) : Prop :=
  ∀ vs, valsOk (fmtsOf fields) vs = true →
    ∃ d, decode_record tcode (encodeVals (fmtsOf fields) vs) =
        some (.event d) ∧
      (∀ i, i < fields.length →
        dget d ((fields.getD i defField).name) =
          some (toEVal (vs.getD i (.num 0)))) ∧
      (∃ b1 b2, dget d "ip-source" = some (.bytes b1) ∧ b1.length = w ∧
        dget d "ip-destination" = some (.bytes b2) ∧ b2.length = w) ∧
      (v2 = false →
        dget d "mpls-label" = some .vnone ∧ dget d "vlan-id" = some .vnone)

/-- Establishes `eventRT` from the per-table facts. -/
theorem eventRT_intro (tcode : Nat) (fields : List Field) (w : Nat) (v2 : Bool)
    (hdc : ∀ buf, decode_record tcode buf =
      (eventDecode fields buf).map Record.event)
    (hnd : (fields.map Field.name).Nodup)
    (hflen : (fmtsOf fields).length = fields.length)
    (isrc idst : Nat)
    (hisrc : isrc < fields.length) (hidst : idst < fields.length)
    (hsrc : (fields.getD isrc defField).name = "ip-source")
    (hdst : (fields.getD idst defField).name = "ip-destination")
    (hsrcf : (fmtsOf fields).getD isrc .B = .S w)
    (hdstf : (fmtsOf fields).getD idst .B = .S w)
    (hv1 : v2 = false → "mpls-label" ∉ fields.map Field.name ∧
      "vlan-id" ∉ fields.map Field.name) :
    eventRT tcode fields w v2 := by
  intro vs hok
  have hvlen : vs.length = fields.length := (valsOk_length _ _ hok).trans hflen
  refine ⟨eventOfParts fields vs, ?_, ?_, ?_, ?_⟩
  · rw [hdc, eventDecode, unpack_encode _ _ hok]
    rfl
  · intro i hi
    exact eventOfParts_dget fields vs hvlen hnd i hi
  · have h9 := valsOk_getD _ _ hok isrc (by omega)
    rw [hsrcf] at h9
    obtain ⟨b1, hb1, hb1l⟩ : ∃ b, vs.getD isrc (.num 0) = .bytes b ∧
        b.length = w := by
      cases hv : vs.getD isrc (.num 0) with
      | num m => rw [hv] at h9; simp [valOk] at h9
      | bytes bs =>
        rw [hv] at h9
        simp only [valOk, decide_eq_true_eq] at h9
        exact ⟨bs, rfl, h9⟩
    have h10 := valsOk_getD _ _ hok idst (by omega)
    rw [hdstf] at h10
    obtain ⟨b2, hb2, hb2l⟩ : ∃ b, vs.getD idst (.num 0) = .bytes b ∧
        b.length = w := by
      cases hv : vs.getD idst (.num 0) with
      | num m => rw [hv] at h10; simp [valOk] at h10
      | bytes bs =>
        rw [hv] at h10
        simp only [valOk, decide_eq_true_eq] at h10
        exact ⟨bs, rfl, h10⟩
    have hs := eventOfParts_dget fields vs hvlen hnd isrc hisrc
    rw [hsrc, hb1] at hs
    have hd := eventOfParts_dget fields vs hvlen hnd idst hidst
    rw [hdst, hb2] at hd
    exact ⟨b1, b2, hs, hb1l, hd, hb2l⟩
  · intro hv2
    obtain ⟨hm, hvl⟩ := hv1 hv2
    constructor
    · rw [eventOfParts_dget_not_mem fields vs hvlen _ hm]
      rfl
    · rw [eventOfParts_dget_not_mem fields vs hvlen _ hvl]
      rfl


/-- Round-trip for type 7 (IPv4 event). -/
theorem eventRT_v1 : eventRT EVENT EVENT_FIELDS 4 false :=
  eventRT_intro EVENT EVENT_FIELDS 4 false
    (fun buf => by simp [decode_record])
    (by decide) (by decide) 9 10 (by decide) (by decide)
    (by decide) (by decide) (by decide) (by decide)
    (fun _ => ⟨by decide, by decide⟩)

/-- Round-trip for type 72 (IPv6 event). -/
theorem eventRT_ip6 : eventRT EVENT_IP6 EVENT_IP6_FIELDS 16 false :=
  eventRT_intro EVENT_IP6 EVENT_IP6_FIELDS 16 false
    (fun buf => by
      simp [decode_record, EVENT, EVENT_IP6])
    (by decide) (by decide) 9 10 (by decide) (by decide)
    (by decide) (by decide) (by decide) (by decide)
    (fun _ => ⟨by decide, by decide⟩)

/-- Round-trip for type 104 (IPv4 v2 event). -/
theorem eventRT_v2 : eventRT EVENT_V2 EVENT_V2_FIELDS 4 true :=
  eventRT_intro EVENT_V2 EVENT_V2_FIELDS 4 true
    (fun buf => by
      simp [decode_record, EVENT, EVENT_IP6, EVENT_V2])
    (by decide) (by decide) 9 10 (by decide) (by decide)
    (by decide) (by decide) (by decide) (by decide)
    (fun h => Bool.noConfusion h)

/-- Round-trip for type 105 (IPv6 v2 event). -/
theorem eventRT_ip6_v2 : eventRT EVENT_IP6_V2 EVENT_IP6_V2_FIELDS 16 true :=
  eventRT_intro EVENT_IP6_V2 EVENT_IP6_V2_FIELDS 16 true
    (fun buf => by
      simp [decode_record, EVENT, EVENT_IP6, EVENT_V2, EVENT_IP6_V2])
    (by decide) (by decide) 9 10 (by decide) (by decide)
    (by decide) (by decide) (by decide) (by decide)
    (fun h => Bool.noConfusion h)


/-- Round-trip property of a fixed-prefix record type (packet and extra
data): decoding the encoding of fitting values concatenated with any
trailing bytes yields a record whose named fields equal the encoded values
and whose `data` entry carries the trailing bytes raw. -/
def fixedRT (tcode : Nat) (fields : List Field) (mkRec : PDict → Record)
    (nf : Nat) : Prop :=
  ∀ vs data, valsOk (fmtsOf fields) vs = true →
    ∃ p, decode_record tcode (encodeVals (fmtsOf fields) vs ++ data) =
        some (mkRec p) ∧
      (∀ i, i < nf → dget p ((fields.getD i defField).name) =
        some (toPVal (vs.getD i (.num 0)))) ∧
      dget p "data" = some (.bytes data)

/-- Establishes `fixedRT` from the per-table facts. -/
theorem fixedRT_intro (tcode : Nat) (fields : List Field)
    (mkRec : PDict → Record) (nf : Nat)
    (hdc : ∀ buf, decode_record tcode buf = (fixedDecode fields buf).map mkRec)
    (hnf : (fmtsOf fields).length = nf)
    (hfl : ((fmtsOf fields).map fmtSize).sum = fixed_len fields)
    (hnfle : nf ≤ fields.length)
    (hnd : ((fields.map Field.name).take nf).Nodup)
    (hkd : ∀ i, i < nf → (fields.getD i defField).name ≠ "data") :
    fixedRT tcode fields mkRec nf := by
  intro vs data hok
  have hvlen : vs.length = nf := (valsOk_length _ _ hok).trans hnf
  have henc : (encodeVals (fmtsOf fields) vs).length = fixed_len fields :=
    (encodeVals_length _ _ hok).trans hfl
  refine ⟨pdictOfParts fields vs data, ?_, ?_, ?_⟩
  · rw [hdc, fixedDecode]
    rw [List.take_left' henc, List.drop_left' henc, unpack_encode _ _ hok]
    rfl
  · intro i hi
    unfold pdictOfParts
    rw [dget_dset_ne _ "data" _ _ (fun hc => (hkd i hi) hc.symm)]
    have hnodup : ((((fields.map Field.name).zip (vs.map toPVal))).map
        Prod.fst).Nodup := by
      rw [map_fst_zip_truncated]
      have : (vs.map toPVal).length = nf := by simp [hvlen]
      rw [this]
      exact hnd
    have hilen : i < ((fields.map Field.name).zip (vs.map toPVal)).length := by
      simp only [List.length_zip, List.length_map, hvlen]
      omega
    have hg := dget_foldl_set ((fields.map Field.name).zip (vs.map toPVal))
      (toPVal (.num 0)) hnodup [] i hilen
    rw [zip_getD _ _ _ _ i (by simp; omega) (by simp [hvlen]; omega)] at hg
    simp only at hg
    rw [getD_map2 fields Field.name defField "" rfl i (by omega)] at hg
    rw [getD_map2 vs toPVal (.num 0) (toPVal (.num 0)) rfl i (by omega)] at hg
    exact hg
  · unfold pdictOfParts
    exact dget_dset_self _ "data" _

/-- Round-trip for type 2 (packet). -/
theorem packetRT : fixedRT PACKET PACKET_FIELDS Record.packet 7 :=
  fixedRT_intro PACKET PACKET_FIELDS Record.packet 7
    (fun buf => by
      simp [decode_record, EVENT, EVENT_IP6, EVENT_V2, EVENT_IP6_V2, PACKET])
    (by decide) (by decide) (by decide) (by decide) (by decide)

/-- Round-trip for type 110 (extra data). -/
theorem extraDataRT : fixedRT EXTRA_DATA EXTRA_DATA_FIELDS Record.extraData 8 :=
  fixedRT_intro EXTRA_DATA EXTRA_DATA_FIELDS Record.extraData 8
    (fun buf => by
      simp [decode_record, EVENT, EVENT_IP6, EVENT_V2, EVENT_IP6_V2, PACKET,
        EXTRA_DATA])
    (by decide) (by decide) (by decide) (by decide) (by decide)

/-- Field values for a hand-built IPv6 event. -/
def evVals6 : List Value :=
  [.num 1, .num 11, .num 12, .num 13, .num 14, .num 15, .num 16, .num 17,
   .num 18, .bytes [1,1,1,1,1,1,1,1,2,2,2,2,2,2,2,2],
   .bytes [3,3,3,3,3,3,3,3,4,4,4,4,4,4,4,4], .num 19, .num 20,
   .num 6, .num 1, .num 2, .num 3]
/-- Field values for a hand-built IPv4 v2 event. -/
def evValsV2 : List Value := evVals 1 ++ [.num 77, .num 88, .num 4]
/-- Field values for a hand-built IPv6 v2 event. -/
def evVals6V2 : List Value := evVals6 ++ [.num 77, .num 88, .num 4]
/-- Fixed-field values for a hand-built packet record. -/
def pktVals : List Value :=
  [.num 1, .num 2, .num 3, .num 4, .num 5, .num 6, .num 7]
/-- Fixed-field values for a hand-built extra-data record. -/
def xdVals : List Value :=
  [.num 1, .num 2, .num 3, .num 4, .num 5, .num 6, .num 7, .num 8]

/-- The dict the IPv6 event buffer decodes to. -/
def evDict6 : EDict :=
  [("extra-data", .extras []), ("packets", .packets []),
   ("mpls-label", .vnone), ("vlan-id", .vnone),
   ("sensor-id", .num 1), ("event-id", .num 11), ("event-second", .num 12),
   ("event-microsecond", .num 13), ("signature-id", .num 14),
   ("generator-id", .num 15), ("signature-revision", .num 16),
   ("classification-id", .num 17), ("priority", .num 18),
   ("ip-source", .bytes [1,1,1,1,1,1,1,1,2,2,2,2,2,2,2,2]),
   ("ip-destination", .bytes [3,3,3,3,3,3,3,3,4,4,4,4,4,4,4,4]),
   ("sport-itype", .num 19), ("dport-icode", .num 20), ("protocol", .num 6),
   ("impact-flag", .num 1), ("impact", .num 2), ("blocked", .num 3)]

/-- The dict the IPv4 v2 event buffer decodes to. -/
def evDictV2 : EDict :=
  [("extra-data", .extras []), ("packets", .packets []),
   ("mpls-label", .num 77), ("vlan-id", .num 88),
   ("sensor-id", .num 1), ("event-id", .num 11), ("event-second", .num 12),
   ("event-microsecond", .num 13), ("signature-id", .num 14),
   ("generator-id", .num 15), ("signature-revision", .num 16),
   ("classification-id", .num 17), ("priority", .num 18),
   ("ip-source", .bytes [1, 2, 3, 4]), ("ip-destination", .bytes [5, 6, 7, 8]),
   ("sport-itype", .num 19), ("dport-icode", .num 20), ("protocol", .num 6),
   ("impact-flag", .num 1), ("impact", .num 2), ("blocked", .num 3),
   ("_pad2", .num 4)]

/-- The dict the IPv6 v2 event buffer decodes to. -/
def evDict6V2 : EDict :=
  [("extra-data", .extras []), ("packets", .packets []),
   ("mpls-label", .num 77), ("vlan-id", .num 88),
   ("sensor-id", .num 1), ("event-id", .num 11), ("event-second", .num 12),
   ("event-microsecond", .num 13), ("signature-id", .num 14),
   ("generator-id", .num 15), ("signature-revision", .num 16),
   ("classification-id", .num 17), ("priority", .num 18),
   ("ip-source", .bytes [1,1,1,1,1,1,1,1,2,2,2,2,2,2,2,2]),
   ("ip-destination", .bytes [3,3,3,3,3,3,3,3,4,4,4,4,4,4,4,4]),
   ("sport-itype", .num 19), ("dport-icode", .num 20), ("protocol", .num 6),
   ("impact-flag", .num 1), ("impact", .num 2), ("blocked", .num 3),
   ("_pad2", .num 4)]

/-- The dict the packet buffer decodes to. -/
def pktDict : PDict :=
  [("sensor-id", .num 1), ("event-id", .num 2), ("event-second", .num 3),
   ("packet-second", .num 4), ("packet-microsecond", .num 5),
   ("linktype", .num 6), ("length", .num 7), ("data", .bytes [9, 9])]

/-- The dict the extra-data buffer decodes to. -/
def xdDict : PDict :=
  [("event-type", .num 1), ("event-length", .num 2), ("sensor-id", .num 3),
   ("event-id", .num 4), ("event-second", .num 5), ("type", .num 6),
   ("data-type", .num 7), ("data-length", .num 8), ("data", .bytes [8, 7])]

/-- C7: for every hand-built header+payload buffer of each of the six
recognized type codes (7, 72, 104, 105, 2, 110), decoding returns a record
whose fields equal the encoded values, unpacked big-endian in declared
field order, with address fields of the correct width (4 bytes for IPv4,
16 for IPv6 variants), trailing unfixed-length bytes attached raw under
`data`, and MPLS label / VLAN id populated only for the v2 variants while
v1 events carry them explicitly unset. -/
theorem C7_decode_roundtrip :
    eventRT EVENT EVENT_FIELDS 4 false ∧
    eventRT EVENT_IP6 EVENT_IP6_FIELDS 16 false ∧
    eventRT EVENT_V2 EVENT_V2_FIELDS 4 true ∧
    eventRT EVENT_IP6_V2 EVENT_IP6_V2_FIELDS 16 true ∧
    fixedRT PACKET PACKET_FIELDS Record.packet 7 ∧
    fixedRT EXTRA_DATA EXTRA_DATA_FIELDS Record.extraData 8 :=
  ⟨eventRT_v1, eventRT_ip6, eventRT_v2, eventRT_ip6_v2, packetRT, extraDataRT⟩

/-- Witness for C7: concrete buffers of all six types decode to the
expected dicts. -/
theorem C7_witness :
    (decode_record EVENT (encodeVals (fmtsOf EVENT_FIELDS) (evVals 1)) =
       some (.event (evDict 1)) ∧
     dget (evDict 1) ((EVENT_FIELDS.getD 0 defField).name) =
       some (toEVal ((evVals 1).getD 0 (.num 0))) ∧
     dget (evDict 1) "mpls-label" = some .vnone ∧
     dget (evDict 1) "vlan-id" = some .vnone) ∧
    (decode_record EVENT_IP6 (encodeVals (fmtsOf EVENT_IP6_FIELDS) evVals6) =
       some (.event evDict6) ∧
     dget evDict6 ((EVENT_IP6_FIELDS.getD 9 defField).name) =
       some (toEVal (evVals6.getD 9 (.num 0)))) ∧
    (decode_record EVENT_V2 (encodeVals (fmtsOf EVENT_V2_FIELDS) evValsV2) =
       some (.event evDictV2) ∧
     dget evDictV2 ((EVENT_V2_FIELDS.getD 17 defField).name) =
       some (toEVal (evValsV2.getD 17 (.num 0)))) ∧
    decode_record EVENT_IP6_V2
      (encodeVals (fmtsOf EVENT_IP6_V2_FIELDS) evVals6V2) =
      some (.event evDict6V2) ∧
    (decode_record PACKET (encodeVals (fmtsOf PACKET_FIELDS) pktVals ++ [9, 9]) =
       some (.packet pktDict) ∧
     dget pktDict "data" = some (.bytes [9, 9])) ∧
    (decode_record EXTRA_DATA
       (encodeVals (fmtsOf EXTRA_DATA_FIELDS) xdVals ++ [8, 7]) =
       some (.extraData xdDict) ∧
     dget xdDict "data" = some (.bytes [8, 7])) := by
  obtain ⟨d1, hd1, hf1, ha1, hm1⟩ := C7_decode_roundtrip.1 (evVals 1) (by decide)
  have hc1 : decode_record EVENT (encodeVals (fmtsOf EVENT_FIELDS) (evVals 1)) =
      some (.event (evDict 1)) := by decide
  rw [hc1] at hd1
  injection hd1 with hd1b
  injection hd1b with hd1c
  subst hd1c
  obtain ⟨d2, hd2, hf2, ha2, hm2⟩ :=
    C7_decode_roundtrip.2.1 evVals6 (by decide)
  have hc2 : decode_record EVENT_IP6
      (encodeVals (fmtsOf EVENT_IP6_FIELDS) evVals6) =
      some (.event evDict6) := by decide
  rw [hc2] at hd2
  injection hd2 with hd2b
  injection hd2b with hd2c
  subst hd2c
  obtain ⟨d3, hd3, hf3, ha3, hm3⟩ :=
    C7_decode_roundtrip.2.2.1 evValsV2 (by decide)
  have hc3 : decode_record EVENT_V2
      (encodeVals (fmtsOf EVENT_V2_FIELDS) evValsV2) =
      some (.event evDictV2) := by decide
  rw [hc3] at hd3
  injection hd3 with hd3b
  injection hd3b with hd3c
  subst hd3c
  obtain ⟨d4, hd4, hf4, ha4, hm4⟩ :=
    C7_decode_roundtrip.2.2.2.1 evVals6V2 (by decide)
  have hc4 : decode_record EVENT_IP6_V2
      (encodeVals (fmtsOf EVENT_IP6_V2_FIELDS) evVals6V2) =
      some (.event evDict6V2) := by decide
  obtain ⟨p5, hd5, hf5, hp5⟩ :=
    C7_decode_roundtrip.2.2.2.2.1 pktVals [9, 9] (by decide)
  have hc5 : decode_record PACKET
      (encodeVals (fmtsOf PACKET_FIELDS) pktVals ++ [9, 9]) =
      some (.packet pktDict) := by decide
  rw [hc5] at hd5
  injection hd5 with hd5b
  injection hd5b with hd5c
  subst hd5c
  obtain ⟨p6, hd6, hf6, hp6⟩ :=
    C7_decode_roundtrip.2.2.2.2.2 xdVals [8, 7] (by decide)
  have hc6 : decode_record EXTRA_DATA
      (encodeVals (fmtsOf EXTRA_DATA_FIELDS) xdVals ++ [8, 7]) =
      some (.extraData xdDict) := by decide
  rw [hc6] at hd6
  injection hd6 with hd6b
  injection hd6b with hd6c
  subst hd6c
  exact ⟨⟨hc1, hf1 0 (by decide), (hm1 rfl).1, (hm1 rfl).2⟩,
    ⟨hc2, hf2 9 (by decide)⟩,
    ⟨hc3, hf3 17 (by decide)⟩,
    hc4,
    ⟨hc5, hp5⟩,
    ⟨hc6, hp6⟩⟩


end Unified2
